import Mathlib

/-!
# Verification of the `sube` subtitle-editor timeline core

Shallow embedding of the timeline layout engine and cue-timing operations of
the `sube` repository:

* `createTimelineRows` — single-pass row builder (`src/unnamed/part_000`);
* `createTimelineRows'` — two-pass (starting-points) row builder
  (`src/unnamed/part_001`);
* `adjustSubtitleTiming`, `updateSubtitleText`, `roundToNearest100ms` —
  cue mutation actions (`src/src/stores/projectStore.ts`).

Conventions of the embedding:

* JavaScript numbers are modelled by `ℚ` (all arithmetic the code performs on
  them is exact on the values of interest); sample-space counts
  (`pointsPerRow`, `startPoint`, `pointCount`) are modelled by `ℤ`.
* Optional function arguments / object fields are `Option`s.
* A runtime `TypeError` (property access on `undefined`) is modelled by the
  result `none`.
* The `while` loops of the row builders need not terminate when
  `pointsPerRow ≤ 0`, so they are written with explicit fuel; the exported
  wrappers supply fuel `waveform.length + 1`, which is proved sufficient
  whenever `pointsPerRow > 0`.
* `Array.prototype.sort` with comparator `(a, b) => a.start - b.start` is a
  stable ascending sort by `start`; every stable sort produces the same list,
  and it is modelled by `List.insertionSort` (which is stable).
-/

namespace Sube

/-- `SubtitleCue` from `src/src/utils/timeline/types.ts`:
`{ id?: string; start: number; end: number; text: string; settings?: string }`. -/
structure SubtitleCue where
  id : Option String
  start : ℚ
  «end» : ℚ
  text : String
  settings : Option String
deriving DecidableEq, Repr

/-- `TimelineConfig` from `types.ts`: `barWidth` (px per sample) and
`msPerPoint` (ms per sample) are JS numbers; `pointsPerRow` is a sample
count, modelled integrally. -/
structure TimelineConfig where
  barWidth : ℚ
  pointsPerRow : ℤ
  msPerPoint : ℚ
deriving DecidableEq, Repr

/-- `SubtitleSegment` from `types.ts`. -/
structure SubtitleSegment where
  id : String
  start : ℚ
  «end» : ℚ
  text : String
  startOffsetInRow : ℚ
  width : ℚ
deriving DecidableEq, Repr

/-- `TimelineRow` from `types.ts`. -/
structure TimelineRow where
  startTime : ℚ
  endTime : ℚ
  startPoint : ℤ
  pointCount : ℤ
  width : ℚ
  subtitles : List SubtitleSegment
deriving DecidableEq, Repr

/-- The default `config` argument of both `createTimelineRows` variants:
`{ barWidth: 8, pointsPerRow: 150, msPerPoint: 100 }`. -/
def defaultConfig : TimelineConfig :=
  { barWidth := 8, pointsPerRow := 150, msPerPoint := 100 }

/-- `[...subtitles].sort((a, b) => a.start - b.start)`: a stable ascending
sort by `start`, modelled by the (stable) insertion sort. -/
def sortByStart (subtitles : List SubtitleCue) : List SubtitleCue :=
  List.insertionSort (fun a b => a.start ≤ b.start) subtitles

/-- `Array.prototype.findIndex`, returning `none` for `-1`. -/
def findIndex {α : Type} (p : α → Bool) : List α → Option ℕ
  | [] => none
  | a :: as => if p a then some 0 else (findIndex p as).map (· + 1)

/-- In-place update of the element at an index (used to model mutation of
one row / one cue of an array); out-of-range indices leave the list as is. -/
def listModify {α : Type} (f : α → α) : ℕ → List α → List α
  | _, [] => []
  | 0, a :: as => f a :: as
  | n + 1, a :: as => a :: listModify f n as

/-- `Math.round`: round to the nearest integer, halves toward `+∞`. -/
def jsRound (x : ℚ) : ℚ := ((⌊x + 1/2⌋ : ℤ) : ℚ)

/-- `projectStore.ts` line 388:
`const roundToNearest100ms = (time) => Math.round(time / 100) * 100`. -/
def roundToNearest100ms (time : ℚ) : ℚ := jsRound (time / 100) * 100

/-! ## Row builder (both variants)

The first pass of `part_000` builds the rows directly in one `while` loop;
the first pass of `part_001` first collects the starting points and then
builds one row per starting point.  The second (subtitle-assignment) pass is
verbatim identical in the two files and is defined once below. -/

/-- The row record pushed by the first pass, for a given starting point and
point count (`startTime = startPoint * msPerPoint`,
`endTime = startTime + pointsInRow * msPerPoint`,
`width = pointsInRow * barWidth`, no subtitles yet). -/
def mkTimelineRow (config : TimelineConfig) (startPoint pointsInRow : ℤ) : TimelineRow :=
  let startTime : ℚ := (startPoint : ℚ) * config.msPerPoint
  { startTime := startTime
    endTime := startTime + (pointsInRow : ℚ) * config.msPerPoint
    startPoint := startPoint
    pointCount := pointsInRow
    width := (pointsInRow : ℚ) * config.barWidth
    subtitles := [] }

/-- `part_000` lines 30–48: the single `while (currentPoint < totalPoints)`
loop with `pointsInRow = Math.min(pointsPerRow, totalPoints - currentPoint)`
and `currentPoint += pointsInRow`.  Fueled; `none` = fuel exhausted (the
source loop does not terminate when `pointsPerRow ≤ 0`). -/
def rowLoop (config : TimelineConfig) (totalPoints : ℤ) : ℕ → ℤ → Option (List TimelineRow)
  | 0, _ => none
  | fuel + 1, currentPoint =>
    if currentPoint < totalPoints then
      let pointsInRow := min config.pointsPerRow (totalPoints - currentPoint)
      (rowLoop config totalPoints fuel (currentPoint + pointsInRow)).map
        (fun rest => mkTimelineRow config currentPoint pointsInRow :: rest)
    else some []

/-- `part_001` lines 33–38: the `while (currentPoint < totalPoints)` loop
collecting `startingPoints`, advancing by `pointsPerRow` each iteration. -/
def startingPointsLoop (pointsPerRow totalPoints : ℤ) : ℕ → ℤ → Option (List ℤ)
  | 0, _ => none
  | fuel + 1, currentPoint =>
    if currentPoint < totalPoints then
      (startingPointsLoop pointsPerRow totalPoints fuel (currentPoint + pointsPerRow)).map
        (fun rest => currentPoint :: rest)
    else some []

/-- `part_001` lines 41–57: one row per starting point, with
`pointsInRow = nextStartPoint - startPoint` where `nextStartPoint` is the
following starting point, or `totalPoints` for the last row. -/
def rowsFromStartingPoints (config : TimelineConfig) (totalPoints : ℤ) :
    List ℤ → List TimelineRow
  | [] => []
  | [p] => [mkTimelineRow config p (totalPoints - p)]
  | p :: q :: rest =>
    mkTimelineRow config p (q - p) :: rowsFromStartingPoints config totalPoints (q :: rest)

/-- The segment pushed into a row's `subtitles` (both variants, second pass):
`id` falls back to `"subtitle-" + index` when the cue's `id` is absent or
`""` (the JS `||` treats the empty string as falsy);
`startOffsetInRow = Math.max(0, (start - row.startTime)/msPerPoint*barWidth)`;
`width = (end - start)/msPerPoint*barWidth`. -/
def mkSegment (config : TimelineConfig) (row : TimelineRow) (index : ℕ)
    (subtitle : SubtitleCue) : SubtitleSegment :=
  { id := match subtitle.id with
      | some s => if s = "" then "subtitle-" ++ toString index else s
      | none => "subtitle-" ++ toString index
    start := subtitle.start
    «end» := subtitle.«end»
    text := subtitle.text
    startOffsetInRow :=
      max 0 ((subtitle.start - row.startTime) / config.msPerPoint * config.barWidth)
    width := (subtitle.«end» - subtitle.start) / config.msPerPoint * config.barWidth }

/-- `row.subtitles.push(...)` on the row at `rowIndex`. -/
def pushSegment (config : TimelineConfig) (rowIndex : ℕ) (index : ℕ)
    (subtitle : SubtitleCue) (rows : List TimelineRow) : List TimelineRow :=
  listModify
    (fun row => { row with subtitles := row.subtitles ++ [mkSegment config row index subtitle] })
    rowIndex rows

/-- The `findIndex` predicate of the second pass:
`subtitle.start >= row.startTime && subtitle.start < row.endTime`. -/
def rowContains (subtitle : SubtitleCue) (row : TimelineRow) : Bool :=
  decide (row.startTime ≤ subtitle.start ∧ subtitle.start < row.endTime)

/-- Second pass, body of the `forEach` (identical in `part_000` lines 53–79
and `part_001` lines 62–91): find the row containing `subtitle.start`;
failing that, fall back to row `0`, skipping the cue if
`subtitle.end < rows[0].startTime`.  On an empty `rows` array the fallback
reads `rows[0].startTime` of `undefined` — a `TypeError`, modelled as
`none`. -/
def assignSubtitle (config : TimelineConfig) (rows : List TimelineRow) (index : ℕ)
    (subtitle : SubtitleCue) : Option (List TimelineRow) :=
  match findIndex (rowContains subtitle) rows with
  | some rowIndex => some (pushSegment config rowIndex index subtitle rows)
  | none =>
    match rows with
    | [] => none
    | row0 :: _ =>
      if subtitle.«end» < row0.startTime then some rows
      else some (pushSegment config 0 index subtitle rows)

/-- `sortedSubtitles.forEach((subtitle, index) => ...)`: left-to-right over
the index-paired sorted cues, propagating a `TypeError`. -/
def assignSubtitles (config : TimelineConfig) :
    List (ℕ × SubtitleCue) → List TimelineRow → Option (List TimelineRow)
  | [], rows => some rows
  | (index, subtitle) :: rest, rows =>
    match assignSubtitle config rows index subtitle with
    | none => none
    | some rows' => assignSubtitles config rest rows'

/-- `createTimelineRows` of `src/unnamed/part_000`, with explicit fuel for
the row-partition loop. -/
def createTimelineRowsFuel (fuel : ℕ) (waveform : Option (List ℚ))
    (subtitles : Option (List SubtitleCue)) (config : TimelineConfig) :
    Option (List TimelineRow) :=
  match waveform with
  | none => some []
  | some w =>
    let totalPoints : ℤ := (w.length : ℤ)
    let sortedSubtitles := sortByStart (subtitles.getD [])
    (rowLoop config totalPoints fuel 0).bind
      (fun rows => assignSubtitles config sortedSubtitles.enum rows)

/-- `createTimelineRows` of `src/unnamed/part_000` (fuel `length + 1`,
sufficient whenever `pointsPerRow > 0`). -/
def createTimelineRows (waveform : Option (List ℚ))
    (subtitles : Option (List SubtitleCue)) (config : TimelineConfig) :
    Option (List TimelineRow) :=
  createTimelineRowsFuel ((waveform.getD []).length + 1) waveform subtitles config

/-- `createTimelineRows` of `src/unnamed/part_001` (two-pass, starting
points first), with explicit fuel. -/
def createTimelineRowsFuel' (fuel : ℕ) (waveform : Option (List ℚ))
    (subtitles : Option (List SubtitleCue)) (config : TimelineConfig) :
    Option (List TimelineRow) :=
  match waveform with
  | none => some []
  | some w =>
    let totalPoints : ℤ := (w.length : ℤ)
    let sortedSubtitles := sortByStart (subtitles.getD [])
    (startingPointsLoop config.pointsPerRow totalPoints fuel 0).bind
      (fun startingPoints =>
        assignSubtitles config sortedSubtitles.enum
          (rowsFromStartingPoints config totalPoints startingPoints))

/-- `createTimelineRows` of `src/unnamed/part_001`. -/
def createTimelineRows' (waveform : Option (List ℚ))
    (subtitles : Option (List SubtitleCue)) (config : TimelineConfig) :
    Option (List TimelineRow) :=
  createTimelineRowsFuel' ((waveform.getD []).length + 1) waveform subtitles config

/-! ## Timing adjuster and text editing (`projectStore.ts`) -/

/-- The `adjustType` argument: `'startTime' | 'endTime'`. -/
inductive AdjustType where
  | startTime
  | endTime
deriving DecidableEq, Repr

/-- The `findIndex` predicate re-locating the target cue in the sorted copy:
`s.start === currentSubtitle.start && s.end === currentSubtitle.end &&
s.text === currentSubtitle.text`. -/
def sameCue (currentSubtitle s : SubtitleCue) : Bool :=
  decide (s.start = currentSubtitle.start ∧ s.«end» = currentSubtitle.«end» ∧
    s.text = currentSubtitle.text)

/-- `projectActions.adjustSubtitleTiming` (`projectStore.ts` lines 372–459),
restricted to its pure core: the mutation of the subtitles array.  `none`
models every `return false` path (invalid index, rejected adjustment);
`some` carries the array the project is updated with. -/
def adjustSubtitleTiming (subtitles : List SubtitleCue) (subtitleIndex : ℕ)
    (adjustType : AdjustType) (amount : ℚ) : Option (List SubtitleCue) :=
  if h : subtitleIndex < subtitles.length then
    let currentSubtitle := subtitles.get ⟨subtitleIndex, h⟩
    let sorted := sortByStart subtitles
    match findIndex (sameCue currentSubtitle) sorted with
    | none => none
    | some sortedIndex =>
      match adjustType with
      | .startTime =>
        let newStartTime := max 0 (roundToNearest100ms (currentSubtitle.start + amount))
        if currentSubtitle.«end» ≤ newStartTime then none
        else
          let trimmed :=
            if amount < 0 ∧ 0 < sortedIndex then
              listModify
                (fun prevSubtitle =>
                  if newStartTime < prevSubtitle.«end» then
                    { prevSubtitle with «end» := newStartTime }
                  else prevSubtitle)
                (sortedIndex - 1) sorted
            else sorted
          some (trimmed.set sortedIndex { currentSubtitle with start := newStartTime })
      | .endTime =>
        let newEndTime := roundToNearest100ms (currentSubtitle.«end» + amount)
        if newEndTime ≤ currentSubtitle.start then none
        else
          let trimmed :=
            if 0 < amount ∧ sortedIndex < sorted.length - 1 then
              listModify
                (fun nextSubtitle =>
                  if nextSubtitle.start < newEndTime then
                    { nextSubtitle with start := newEndTime }
                  else nextSubtitle)
                (sortedIndex + 1) sorted
            else sorted
          some (trimmed.set sortedIndex { currentSubtitle with «end» := newEndTime })
  else none

/-- The text-split loop of `updateSubtitleText` (`projectStore.ts` lines
307–333): one new cue per part, `segmentDuration = totalDuration *
(part.length / totalChars)`, each segment starting at the previous one's
end, the last inheriting the original `end` exactly.  `start` carries the
start of the next segment to emit (initially the original cue's start). -/
def splitLoop (currentSubtitle : SubtitleCue) (totalDuration totalChars : ℚ)
    (start : ℚ) : List String → List SubtitleCue
  | [] => []
  | [part] =>
    [{ id := none, start := start, «end» := currentSubtitle.«end», text := part,
       settings := currentSubtitle.settings }]
  | part :: part' :: rest =>
    let segmentDuration := totalDuration * ((part.length : ℚ) / totalChars)
    { id := none, start := start, «end» := start + segmentDuration, text := part,
      settings := currentSubtitle.settings } ::
      splitLoop currentSubtitle totalDuration totalChars (start + segmentDuration)
        (part' :: rest)

/-- `String.prototype.trim`, on the character list of a string.  (JS trims a
slightly larger whitespace class than `Char.isWhitespace`; they agree on the
ASCII inputs of interest.) -/
def jsTrim (s : List Char) : List Char :=
  ((s.dropWhile Char.isWhitespace).reverse.dropWhile Char.isWhitespace).reverse

/-- `String.prototype.split("\n\n")` on the character list of a string:
split at each leftmost non-overlapping occurrence of two consecutive
newlines.  `"".split(x)` is `[""]`, i.e. the result is always non-empty. -/
def splitBlankLines : List Char → List (List Char)
  | [] => [[]]
  | '\n' :: '\n' :: rest => [] :: splitBlankLines rest
  | c :: rest =>
    match splitBlankLines rest with
    | [] => [[c]]
    | part :: parts => (c :: part) :: parts

/-- The blank-line-delimited parts of the new text:
`newText.split("\n\n").map(p => p.trim()).filter(p => p.length > 0)`.
(JS `String.prototype.length` counts UTF-16 units; the model counts
characters — these agree off the astral planes.) -/
def splitParts (newText : String) : List String :=
  ((splitBlankLines newText.data).map (fun part => String.mk (jsTrim part))).filter
    (fun part => 0 < part.length)

/-- `projectActions.updateSubtitleText` (`projectStore.ts` lines 273–369),
restricted to its pure core: the mutation of the subtitles array.  `none`
models the `return false` path (invalid index); `newText.includes("\n\n")`
is modelled as the blank-line split producing more than one piece. -/
def updateSubtitleText (subtitles : List SubtitleCue) (subtitleIndex : ℕ)
    (newText : String) : Option (List SubtitleCue) :=
  if h : subtitleIndex < subtitles.length then
    let currentSubtitle := subtitles.get ⟨subtitleIndex, h⟩
    if jsTrim newText.data = [] then
      some (subtitles.take subtitleIndex ++ subtitles.drop (subtitleIndex + 1))
    else
      let totalDuration := currentSubtitle.«end» - currentSubtitle.start
      if (splitBlankLines newText.data).length ≠ 1 then
        let parts := splitParts newText
        if 1 < parts.length then
          let totalChars : ℚ := ((parts.map String.length).sum : ℕ)
          let newSubtitles :=
            splitLoop currentSubtitle totalDuration totalChars currentSubtitle.start parts
          some (subtitles.take subtitleIndex ++ newSubtitles ++
            subtitles.drop (subtitleIndex + 1))
        else
          some (subtitles.set subtitleIndex { currentSubtitle with text := parts.headD "" })
      else
        some (subtitles.set subtitleIndex { currentSubtitle with text := newText })
  else none

/-! ## Derived notions and concrete fixtures used by the theorems -/

instance : IsTotal SubtitleCue (fun a b => a.start ≤ b.start) :=
  ⟨fun a b => le_total a.start b.start⟩

instance : IsTrans SubtitleCue (fun a b => a.start ≤ b.start) :=
  ⟨fun _ _ _ hab hbc => le_trans hab hbc⟩

/-- The geometry of a row (everything except its `subtitles`). -/
def rowShape (r : TimelineRow) : ℚ × ℚ × ℤ × ℤ × ℚ :=
  (r.startTime, r.endTime, r.startPoint, r.pointCount, r.width)

/-- Closed form of the `i`-th row the `part_000` loop emits (the loop visits
the starting points `0, P, 2P, …`). -/
def specRow (config : TimelineConfig) (totalPoints : ℤ) (i : ℕ) : TimelineRow :=
  mkTimelineRow config ((i : ℤ) * config.pointsPerRow)
    (min config.pointsPerRow (totalPoints - (i : ℤ) * config.pointsPerRow))

/-- Two cues overlap when the half-open intervals `[start, end)` have a
non-empty intersection. -/
def Overlaps (a b : SubtitleCue) : Prop :=
  max a.start b.start < min a.«end» b.«end»

/-- The invariant of C2: no two cues of the collection overlap. -/
def PairwiseNonOverlapping (l : List SubtitleCue) : Prop :=
  l.Pairwise (fun a b => ¬ Overlaps a b)

/-- A three-sample waveform, used to instantiate C1 concretely. -/
def exampleWaveform : List ℚ := [1, 1, 1]

/-- A small all-positive config, used to instantiate C1 concretely. -/
def exampleConfig : TimelineConfig :=
  { barWidth := 10, pointsPerRow := 2, msPerPoint := 100 }

/-- A one-second cue, used to instantiate C8 concretely. -/
def exampleCue : SubtitleCue :=
  { id := none, start := 0, «end» := 1000, text := "t", settings := none }

/-! ## Helper lemmas: `findIndex`, `listModify`, the sort -/

theorem findIndex_eq_some {α : Type} (p : α → Bool) :
    ∀ (l : List α) (k : ℕ), findIndex p l = some k →
      ∃ h : k < l.length, p (l.get ⟨k, h⟩) = true := by
  intro l
  induction l with
  | nil => intro k hk; simp [findIndex] at hk
  | cons a as ih =>
    intro k hk
    by_cases hpa : p a
    · simp [findIndex, hpa] at hk
      exact hk ▸ ⟨Nat.succ_pos _, hpa⟩
    · simp [findIndex, hpa] at hk
      obtain ⟨k', hk', rfl⟩ := hk
      obtain ⟨h', hp'⟩ := ih k' hk'
      exact ⟨Nat.succ_lt_succ h', hp'⟩

theorem length_listModify {α : Type} (f : α → α) :
    ∀ (n : ℕ) (l : List α), (listModify f n l).length = l.length := by
  intro n l
  induction l generalizing n with
  | nil => cases n <;> rfl
  | cons a as ih =>
    cases n with
    | zero => rfl
    | succ n => simp [listModify, ih]

theorem get_listModify {α : Type} (f : α → α) :
    ∀ (n : ℕ) (l : List α) (m : ℕ) (h : m < (listModify f n l).length)
      (h' : m < l.length),
      (listModify f n l).get ⟨m, h⟩ =
        if n = m then f (l.get ⟨m, h'⟩) else l.get ⟨m, h'⟩ := by
  intro n l
  induction l generalizing n with
  | nil => intro m _ h'; exact absurd h' (Nat.not_lt_zero m)
  | cons a as ih =>
    intro m h h'
    cases n with
    | zero =>
      cases m with
      | zero => rfl
      | succ m => simp [listModify]
    | succ n =>
      cases m with
      | zero => simp [listModify]
      | succ m =>
        have hm' : m < as.length := Nat.lt_of_succ_lt_succ h'
        have hm : m < (listModify f n as).length := by
          rw [length_listModify]; exact hm'
        simpa [listModify, Nat.succ_inj] using ih n m hm hm'

theorem map_listModify_of_invariant {α β : Type} (f : α → α) (g : α → β)
    (hg : ∀ a, g (f a) = g a) :
    ∀ (n : ℕ) (l : List α), (listModify f n l).map g = l.map g := by
  intro n l
  induction l generalizing n with
  | nil => cases n <;> rfl
  | cons a as ih =>
    cases n with
    | zero => simp [listModify, hg]
    | succ n => simp [listModify, ih]

theorem sortByStart_perm (l : List SubtitleCue) : List.Perm (sortByStart l) l :=
  List.perm_insertionSort _ l

theorem sortByStart_sorted (l : List SubtitleCue) :
    List.Sorted (fun a b : SubtitleCue => a.start ≤ b.start) (sortByStart l) :=
  List.sorted_insertionSort _ l

theorem sortByStart_length (l : List SubtitleCue) : (sortByStart l).length = l.length :=
  (sortByStart_perm l).length_eq

/-! ## Shape preservation: the subtitle-assignment pass only appends to
`subtitles`, leaving all row geometry untouched -/

theorem map_rowShape_pushSegment (config : TimelineConfig) (rowIndex index : ℕ)
    (subtitle : SubtitleCue) (rows : List TimelineRow) :
    (pushSegment config rowIndex index subtitle rows).map rowShape = rows.map rowShape := by
  unfold pushSegment
  apply map_listModify_of_invariant
  intro a
  rfl

theorem assignSubtitle_shape {config : TimelineConfig} {rows rows' : List TimelineRow}
    {index : ℕ} {subtitle : SubtitleCue}
    (h : assignSubtitle config rows index subtitle = some rows') :
    rows'.map rowShape = rows.map rowShape := by
  unfold assignSubtitle at h
  rcases hfi : findIndex (rowContains subtitle) rows with _ | rowIndex
  · rw [hfi] at h
    rcases rows with _ | ⟨row0, rest⟩
    · exact absurd h (by simp)
    · by_cases hskip : subtitle.«end» < row0.startTime
      · simp only [hskip, if_pos] at h
        cases h; rfl
      · simp only [hskip, if_neg, not_false_iff] at h
        cases h
        exact map_rowShape_pushSegment ..
  · rw [hfi] at h
    cases h
    exact map_rowShape_pushSegment ..

theorem assignSubtitles_shape {config : TimelineConfig} :
    ∀ {l : List (ℕ × SubtitleCue)} {rows rows' : List TimelineRow},
      assignSubtitles config l rows = some rows' →
      rows'.map rowShape = rows.map rowShape := by
  intro l
  induction l with
  | nil => intro rows rows' h; cases h; rfl
  | cons p rest ih =>
    intro rows rows' h
    obtain ⟨index, subtitle⟩ := p
    unfold assignSubtitles at h
    rcases ha : assignSubtitle config rows index subtitle with _ | rows₁
    · rw [ha] at h; cases h
    · rw [ha] at h
      exact (ih h).trans (assignSubtitle_shape ha)

theorem assignSubtitle_isSome (config : TimelineConfig) (rows : List TimelineRow)
    (index : ℕ) (subtitle : SubtitleCue) (hne : rows ≠ []) :
    ∃ rows', assignSubtitle config rows index subtitle = some rows' := by
  unfold assignSubtitle
  rcases hfi : findIndex (rowContains subtitle) rows with _ | rowIndex
  · rcases rows with _ | ⟨row0, rest⟩
    · exact absurd rfl hne
    · by_cases hskip : subtitle.«end» < row0.startTime
      · exact ⟨row0 :: rest, by simp [hskip]⟩
      · exact ⟨pushSegment config 0 index subtitle (row0 :: rest), by simp [hskip]⟩
  · exact ⟨_, rfl⟩

theorem assignSubtitles_isSome (config : TimelineConfig) :
    ∀ (l : List (ℕ × SubtitleCue)) (rows : List TimelineRow), rows ≠ [] →
      ∃ rows', assignSubtitles config l rows = some rows' := by
  intro l
  induction l with
  | nil => intro rows _; exact ⟨rows, rfl⟩
  | cons p rest ih =>
    intro rows hne
    obtain ⟨index, subtitle⟩ := p
    obtain ⟨rows₁, h₁⟩ := assignSubtitle_isSome config rows index subtitle hne
    have hne₁ : rows₁ ≠ [] := by
      intro hnil
      have := assignSubtitle_shape h₁
      rw [hnil] at this
      exact hne (List.map_eq_nil_iff.mp this.symm)
    obtain ⟨rows', h'⟩ := ih rows₁ hne₁
    exact ⟨rows', by simp [assignSubtitles, h₁, h']⟩

/-! ## First pass: characterization of the row-partition loop -/

theorem rowLoop_stop {config : TimelineConfig} {totalPoints current : ℤ}
    (hstop : ¬ current < totalPoints) :
    ∀ (fuel : ℕ) (rs : List TimelineRow),
      rowLoop config totalPoints fuel current = some rs → rs = [] := by
  intro fuel rs h
  cases fuel with
  | zero => exact absurd h (by simp [rowLoop])
  | succ fuel =>
    simp only [rowLoop, hstop, if_neg, not_false_iff, Option.some.injEq] at h
    exact h.symm

theorem rowLoop_eq_spec (config : TimelineConfig) (totalPoints : ℤ)
    (hP : 0 < config.pointsPerRow) :
    ∀ (fuel j : ℕ) (rs : List TimelineRow),
      rowLoop config totalPoints fuel ((j : ℤ) * config.pointsPerRow) = some rs →
      ∃ k : ℕ, rs = (List.range k).map (fun i => specRow config totalPoints (j + i)) := by
  intro fuel
  induction fuel with
  | zero => intro j rs h; exact absurd h (by simp [rowLoop])
  | succ fuel ih =>
    intro j rs h
    by_cases hlt : (j : ℤ) * config.pointsPerRow < totalPoints
    · simp only [rowLoop, hlt, if_pos] at h
      rcases hrest : rowLoop config totalPoints fuel
          ((j : ℤ) * config.pointsPerRow +
            min config.pointsPerRow (totalPoints - (j : ℤ) * config.pointsPerRow)) with
          _ | rest
      · rw [hrest] at h; exact absurd h (by simp)
      · rw [hrest] at h
        simp only [Option.map_some', Option.some.injEq] at h
        by_cases hle : totalPoints - (j : ℤ) * config.pointsPerRow ≤ config.pointsPerRow
        · have hmin : min config.pointsPerRow (totalPoints - (j : ℤ) * config.pointsPerRow) =
              totalPoints - (j : ℤ) * config.pointsPerRow := min_eq_right hle
          have hstop : ¬ ((j : ℤ) * config.pointsPerRow +
              (totalPoints - (j : ℤ) * config.pointsPerRow) < totalPoints) := by omega
          have hrest' : rest = [] := by
            apply rowLoop_stop hstop fuel
            rw [← hrest, hmin]
          refine ⟨1, ?_⟩
          rw [← h, hrest']
          simp [specRow, hmin, List.range_succ]
        · have hmin : min config.pointsPerRow (totalPoints - (j : ℤ) * config.pointsPerRow) =
              config.pointsPerRow := min_eq_left (by omega)
          rw [hmin] at hrest
          have hcast : (j : ℤ) * config.pointsPerRow + config.pointsPerRow =
              ((j + 1 : ℕ) : ℤ) * config.pointsPerRow := by push_cast; ring
          rw [hcast] at hrest
          obtain ⟨k', hk'⟩ := ih (j + 1) rest hrest
          refine ⟨k' + 1, ?_⟩
          rw [← h, hk']
          rw [List.range_succ_eq_map]
          simp only [List.map_cons, List.map_map]
          have hfun : ((fun i => specRow config totalPoints (j + i)) ∘ Nat.succ) =
              fun i => specRow config totalPoints (j + 1 + i) := by
            funext i
            simp only [Function.comp_apply]
            congr 1
            omega
          rw [hfun]
          congr 1
    · have : rs = [] := rowLoop_stop hlt _ _ h
      exact ⟨0, by simp [this]⟩

theorem rowLoop_length (config : TimelineConfig) (totalPoints : ℤ)
    (hP : 0 < config.pointsPerRow) :
    ∀ (fuel : ℕ) (current : ℤ) (rs : List TimelineRow), current ≤ totalPoints →
      rowLoop config totalPoints fuel current = some rs →
      (rs.length : ℤ) = ⌈((totalPoints - current : ℤ) : ℚ) / (config.pointsPerRow : ℚ)⌉ := by
  intro fuel
  induction fuel with
  | zero => intro current rs _ h; exact absurd h (by simp [rowLoop])
  | succ fuel ih =>
    intro current rs hcur h
    have hPQ : (0 : ℚ) < (config.pointsPerRow : ℚ) := by exact_mod_cast hP
    by_cases hlt : current < totalPoints
    · simp only [rowLoop, hlt, if_pos] at h
      rcases hrest : rowLoop config totalPoints fuel
          (current + min config.pointsPerRow (totalPoints - current)) with _ | rest
      · rw [hrest] at h; exact absurd h (by simp)
      · rw [hrest] at h
        simp only [Option.map_some', Option.some.injEq] at h
        have hcur' : current + min config.pointsPerRow (totalPoints - current) ≤ totalPoints := by
          omega
        have hlen := ih _ rest hcur' hrest
        rw [← h]
        simp only [List.length_cons]
        by_cases hle : totalPoints - current ≤ config.pointsPerRow
        · have hmin : min config.pointsPerRow (totalPoints - current) =
              totalPoints - current := min_eq_right hle
          rw [hmin] at hlen
          have hzero : totalPoints - (current + (totalPoints - current)) = 0 := by omega
          rw [hzero] at hlen
          simp only [Int.cast_zero, zero_div, Int.ceil_zero] at hlen
          have h1 : ⌈((totalPoints - current : ℤ) : ℚ) / (config.pointsPerRow : ℚ)⌉ = 1 := by
            rw [Int.ceil_eq_iff]
            have hnum : (0 : ℚ) < ((totalPoints - current : ℤ) : ℚ) := by
              have h0 : (0 : ℤ) < totalPoints - current := by omega
              exact_mod_cast h0
            have hden : ((totalPoints - current : ℤ) : ℚ) ≤ (config.pointsPerRow : ℚ) := by
              exact_mod_cast hle
            constructor
            · simp only [Int.cast_one, sub_self]
              exact div_pos hnum hPQ
            · rw [Int.cast_one, div_le_one hPQ]
              exact hden
          rw [h1]
          push_cast
          omega
        · have hmin : min config.pointsPerRow (totalPoints - current) =
              config.pointsPerRow := min_eq_left (by omega)
          rw [hmin] at hlen
          have hsub : ((totalPoints - (current + config.pointsPerRow) : ℤ) : ℚ) /
              (config.pointsPerRow : ℚ) =
              ((totalPoints - current : ℤ) : ℚ) / (config.pointsPerRow : ℚ) - 1 := by
            push_cast
            field_simp
            ring
          rw [hsub, Int.ceil_sub_one] at hlen
          omega
    · have : rs = [] := rowLoop_stop hlt _ _ h
      have hM : totalPoints - current = 0 := by omega
      rw [this, hM]
      simp

theorem rowLoop_sum (config : TimelineConfig) (totalPoints : ℤ) :
    ∀ (fuel : ℕ) (current : ℤ) (rs : List TimelineRow), current ≤ totalPoints →
      rowLoop config totalPoints fuel current = some rs →
      ((rs.map TimelineRow.pointCount).sum : ℤ) = totalPoints - current := by
  intro fuel
  induction fuel with
  | zero => intro current rs _ h; exact absurd h (by simp [rowLoop])
  | succ fuel ih =>
    intro current rs hcur h
    by_cases hlt : current < totalPoints
    · simp only [rowLoop, hlt, if_pos] at h
      rcases hrest : rowLoop config totalPoints fuel
          (current + min config.pointsPerRow (totalPoints - current)) with _ | rest
      · rw [hrest] at h; exact absurd h (by simp)
      · rw [hrest] at h
        simp only [Option.map_some', Option.some.injEq] at h
        have hcur' : current + min config.pointsPerRow (totalPoints - current) ≤ totalPoints := by
          omega
        have hsum := ih _ rest hcur' hrest
        rw [← h]
        simp only [List.map_cons, List.sum_cons, mkTimelineRow]
        omega
    · have : rs = [] := rowLoop_stop hlt _ _ h
      rw [this]
      simp
      omega

theorem rowLoop_isSome (config : TimelineConfig) (totalPoints : ℤ)
    (hP : 0 < config.pointsPerRow) :
    ∀ (fuel : ℕ) (current : ℤ), current ≤ totalPoints →
      (totalPoints - current).toNat < fuel →
      ∃ rs, rowLoop config totalPoints fuel current = some rs := by
  intro fuel
  induction fuel with
  | zero => intro current _ hfuel; omega
  | succ fuel ih =>
    intro current hcur hfuel
    by_cases hlt : current < totalPoints
    · have h1 : 1 ≤ min config.pointsPerRow (totalPoints - current) := by omega
      have hcur' : current + min config.pointsPerRow (totalPoints - current) ≤ totalPoints := by
        omega
      have hfuel' : (totalPoints - (current + min config.pointsPerRow (totalPoints - current))).toNat
          < fuel := by omega
      obtain ⟨rest, hrest⟩ := ih _ hcur' hfuel'
      refine ⟨mkTimelineRow config current
        (min config.pointsPerRow (totalPoints - current)) :: rest, ?_⟩
      simp only [rowLoop, hlt, if_pos, hrest, Option.map_some']
    · exact ⟨[], by simp [rowLoop, hlt]⟩

/-! ## The two row-builder variants produce the same rows -/

theorem startingPointsLoop_stop {pointsPerRow totalPoints current : ℤ}
    (hstop : ¬ current < totalPoints) :
    ∀ (fuel : ℕ) (sps : List ℤ),
      startingPointsLoop pointsPerRow totalPoints fuel current = some sps → sps = [] := by
  intro fuel sps h
  cases fuel with
  | zero => exact absurd h (by simp [startingPointsLoop])
  | succ fuel =>
    simp only [startingPointsLoop, hstop, if_neg, not_false_iff, Option.some.injEq] at h
    exact h.symm

theorem startingPointsLoop_isSome (pointsPerRow totalPoints : ℤ) (hP : 0 < pointsPerRow) :
    ∀ (fuel : ℕ) (current : ℤ), (totalPoints - current).toNat < fuel →
      ∃ sps, startingPointsLoop pointsPerRow totalPoints fuel current = some sps := by
  intro fuel
  induction fuel with
  | zero => intro current hfuel; omega
  | succ fuel ih =>
    intro current hfuel
    by_cases hlt : current < totalPoints
    · have hfuel' : (totalPoints - (current + pointsPerRow)).toNat < fuel := by omega
      obtain ⟨rest, hrest⟩ := ih _ hfuel'
      exact ⟨current :: rest,
        by simp only [startingPointsLoop, hlt, if_pos, hrest, Option.map_some']⟩
    · exact ⟨[], by simp [startingPointsLoop, hlt]⟩

theorem rowLoop_eq_rowsFromStartingPoints (config : TimelineConfig) (totalPoints : ℤ) :
    ∀ (fuel : ℕ) (current : ℤ) (sps : List ℤ),
      startingPointsLoop config.pointsPerRow totalPoints fuel current = some sps →
      rowLoop config totalPoints fuel current =
        some (rowsFromStartingPoints config totalPoints sps) := by
  intro fuel
  induction fuel with
  | zero => intro current sps h; exact absurd h (by simp [startingPointsLoop])
  | succ fuel ih =>
    intro current sps h
    by_cases hlt : current < totalPoints
    · simp only [startingPointsLoop, hlt, if_pos] at h
      rcases hsps' : startingPointsLoop config.pointsPerRow totalPoints fuel
          (current + config.pointsPerRow) with _ | sps'
      · rw [hsps'] at h; exact absurd h (by simp)
      · rw [hsps'] at h
        simp only [Option.map_some', Option.some.injEq] at h
        subst h
        by_cases hle : totalPoints - current ≤ config.pointsPerRow
        · have hmin : min config.pointsPerRow (totalPoints - current) =
              totalPoints - current := min_eq_right hle
          have hstop2 : ¬ current + config.pointsPerRow < totalPoints := by omega
          have hsps'nil : sps' = [] := startingPointsLoop_stop hstop2 fuel sps' hsps'
          have hfuelpos : ∃ f, fuel = f + 1 := by
            cases fuel with
            | zero => exact absurd hsps' (by simp [startingPointsLoop])
            | succ f => exact ⟨f, rfl⟩
          obtain ⟨f, rfl⟩ := hfuelpos
          have hstop3 : ¬ current + (totalPoints - current) < totalPoints := by omega
          simp only [rowLoop, hlt, if_pos, hmin, hstop3, if_neg, not_false_iff,
            Option.map_some', hsps'nil]
          rfl
        · have hmin : min config.pointsPerRow (totalPoints - current) =
              config.pointsPerRow := min_eq_left (by omega)
          have hlt' : current + config.pointsPerRow < totalPoints := by omega
          have hsps'cons : ∃ sps'', sps' = (current + config.pointsPerRow) :: sps'' := by
            cases fuel with
            | zero => exact absurd hsps' (by simp [startingPointsLoop])
            | succ f =>
              simp only [startingPointsLoop, hlt', if_pos] at hsps'
              rcases htail : startingPointsLoop config.pointsPerRow totalPoints f
                  (current + config.pointsPerRow + config.pointsPerRow) with _ | tail
              · rw [htail] at hsps'; exact absurd hsps' (by simp)
              · rw [htail] at hsps'
                simp only [Option.map_some', Option.some.injEq] at hsps'
                exact ⟨tail, hsps'.symm⟩
          obtain ⟨sps'', rfl⟩ := hsps'cons
          have hih := ih _ _ hsps'
          simp only [rowLoop, hlt, if_pos, hmin, hih, Option.map_some']
          simp only [rowsFromStartingPoints, Option.some.injEq]
          congr 2
          omega
    · have hsps : sps = [] := startingPointsLoop_stop hlt _ _ h
      have hfuelpos : ∃ f, fuel + 1 = f + 1 := ⟨fuel, rfl⟩
      subst hsps
      simp [rowLoop, hlt, rowsFromStartingPoints]

/-- C10: the two `createTimelineRows` variants agree whenever
`pointsPerRow > 0` (the loops then terminate, produce the same row
partition, and the assignment pass is shared verbatim). -/
theorem createTimelineRows_eq_variants (waveform : Option (List ℚ))
    (subtitles : Option (List SubtitleCue)) (config : TimelineConfig)
    (hP : 0 < config.pointsPerRow) :
    createTimelineRows waveform subtitles config =
      createTimelineRows' waveform subtitles config := by
  rcases waveform with _ | w
  · rfl
  · unfold createTimelineRows createTimelineRows' createTimelineRowsFuel createTimelineRowsFuel'
    have hfuel : ((w.length : ℤ) - 0).toNat < (some w |>.getD []).length + 1 := by
      simp only [Option.getD_some]
      omega
    obtain ⟨sps, hsps⟩ := startingPointsLoop_isSome config.pointsPerRow (w.length : ℤ) hP
      ((some w |>.getD []).length + 1) 0 hfuel
    have hrow := rowLoop_eq_rowsFromStartingPoints config (w.length : ℤ)
      ((some w |>.getD []).length + 1) 0 sps hsps
    simp only [Option.getD_some] at hsps hrow ⊢
    rw [hsps, hrow]
    rfl

/-! ## C1: the row partition -/

theorem map_get_of_map_eq {α β : Type} {f : α → β} :
    ∀ {l l' : List α}, l.map f = l'.map f →
      ∀ (i : ℕ) (h : i < l.length) (h' : i < l'.length),
        f (l.get ⟨i, h⟩) = f (l'.get ⟨i, h'⟩) := by
  intro l
  induction l with
  | nil => intro l' _ i h _; exact absurd h (Nat.not_lt_zero i)
  | cons a as ih =>
    intro l' hmap i h h'
    rcases l' with _ | ⟨b, bs⟩
    · simp at hmap
    · simp only [List.map_cons, List.cons.injEq] at hmap
      cases i with
      | zero => exact hmap.1
      | succ i => exact ih hmap.2 i (Nat.lt_of_succ_lt_succ h) (Nat.lt_of_succ_lt_succ h')

theorem createTimelineRows_run (w : List ℚ) (subtitles : Option (List SubtitleCue))
    (config : TimelineConfig) {rows₀ : List TimelineRow}
    (hrow : rowLoop config (w.length : ℤ) (w.length + 1) 0 = some rows₀) :
    createTimelineRows (some w) subtitles config =
      assignSubtitles config (sortByStart (subtitles.getD [])).enum rows₀ := by
  unfold createTimelineRows createTimelineRowsFuel
  simp only [Option.getD_some]
  rw [hrow]
  rfl

/-- C1: for a non-empty waveform and a positive config, `createTimelineRows`
(`part_000`) returns `⌈N / P⌉` rows whose `pointCount`s sum to `N`, every
row but the last carries exactly `P` points, no row is empty, rows are
time-contiguous, and each row satisfies the geometry equations
`startTime = startPoint * msPerPoint`,
`endTime = startTime + pointCount * msPerPoint`,
`width = pointCount * barWidth`. -/
theorem C1_row_partition (w : List ℚ) (subtitles : Option (List SubtitleCue))
    (config : TimelineConfig) (hw : w ≠ []) (hP : 0 < config.pointsPerRow)
    (hb : 0 < config.barWidth) (hm : 0 < config.msPerPoint) :
    ∃ rows, createTimelineRows (some w) subtitles config = some rows ∧
      (rows.length : ℤ) = ⌈(w.length : ℚ) / (config.pointsPerRow : ℚ)⌉ ∧
      (rows.map TimelineRow.pointCount).sum = (w.length : ℤ) ∧
      (∀ (i : ℕ) (hi : i < rows.length), i + 1 < rows.length →
        (rows.get ⟨i, hi⟩).pointCount = config.pointsPerRow) ∧
      (∀ r ∈ rows, 0 < r.pointCount) ∧
      (∀ (i : ℕ) (hi1 : i + 1 < rows.length),
        (rows.get ⟨i, Nat.lt_of_succ_lt hi1⟩).endTime = (rows.get ⟨i + 1, hi1⟩).startTime) ∧
      (∀ r ∈ rows, r.startTime = (r.startPoint : ℚ) * config.msPerPoint ∧
        r.endTime = r.startTime + (r.pointCount : ℚ) * config.msPerPoint ∧
        r.width = (r.pointCount : ℚ) * config.barWidth) := by
  have hN1 : 1 ≤ (w.length : ℤ) := by
    have hne : w.length ≠ 0 := fun h0 => hw (List.length_eq_zero.mp h0)
    omega
  have hPQ : (0 : ℚ) < (config.pointsPerRow : ℚ) := by exact_mod_cast hP
  obtain ⟨rows₀, hrow⟩ := rowLoop_isSome config (w.length : ℤ) hP (w.length + 1) 0
    (by omega) (by omega)
  have h00 : ((0 : ℕ) : ℤ) * config.pointsPerRow = 0 := by simp
  obtain ⟨k, hk⟩ := rowLoop_eq_spec config (w.length : ℤ) hP (w.length + 1) 0 rows₀
    (by rw [h00]; exact hrow)
  have hk0 : rows₀ = (List.range k).map (fun i => specRow config (w.length : ℤ) i) := by
    rw [hk]
    apply List.map_congr_left
    intro i _
    simp
  have hlen₀ := rowLoop_length config (w.length : ℤ) hP (w.length + 1) 0 rows₀ (by omega) hrow
  rw [sub_zero] at hlen₀
  have hsum₀ := rowLoop_sum config (w.length : ℤ) (w.length + 1) 0 rows₀ (by omega) hrow
  rw [sub_zero] at hsum₀
  have hceil1 : 0 < ⌈((w.length : ℤ) : ℚ) / (config.pointsPerRow : ℚ)⌉ := by
    rw [Int.lt_ceil]
    push_cast
    apply div_pos _ hPQ
    exact_mod_cast hN1
  have hne₀ : rows₀ ≠ [] := by
    intro h0
    rw [h0] at hlen₀
    simp only [List.length_nil, Nat.cast_zero] at hlen₀
    omega
  obtain ⟨rows, hassign⟩ :=
    assignSubtitles_isSome config (sortByStart (subtitles.getD [])).enum rows₀ hne₀
  have hmain : createTimelineRows (some w) subtitles config = some rows := by
    rw [createTimelineRows_run w subtitles config hrow]
    exact hassign
  have hsh := assignSubtitles_shape hassign
  have hlen : rows.length = rows₀.length := by
    have h2 := congrArg List.length hsh
    simpa using h2
  have hr0 : ∀ (i : ℕ) (hi : i < rows₀.length),
      rows₀.get ⟨i, hi⟩ = specRow config (w.length : ℤ) i := by
    intro i hi
    simp only [List.get_eq_getElem]
    simp only [hk0]
    simp [List.getElem_map, List.getElem_range]
  have hlt_of_lt_len : ∀ i : ℕ, (i : ℤ) < (rows₀.length : ℤ) →
      (i : ℤ) * config.pointsPerRow < (w.length : ℤ) := by
    intro i hi
    rw [hlen₀, Int.lt_ceil, lt_div_iff hPQ] at hi
    exact_mod_cast hi
  have hminP : ∀ i : ℕ, i + 1 < rows₀.length →
      min config.pointsPerRow ((w.length : ℤ) - (i : ℤ) * config.pointsPerRow) =
        config.pointsPerRow := by
    intro i hi1
    have h2 : ((i + 1 : ℕ) : ℤ) * config.pointsPerRow < (w.length : ℤ) := by
      apply hlt_of_lt_len
      exact_mod_cast hi1
    have h3 : ((i + 1 : ℕ) : ℤ) * config.pointsPerRow =
        (i : ℤ) * config.pointsPerRow + config.pointsPerRow := by push_cast; ring
    rw [h3] at h2
    apply min_eq_left
    omega
  have hmin1 : ∀ i : ℕ, i < rows₀.length →
      1 ≤ min config.pointsPerRow ((w.length : ℤ) - (i : ℤ) * config.pointsPerRow) := by
    intro i hi
    have h2 : (i : ℤ) * config.pointsPerRow < (w.length : ℤ) := by
      apply hlt_of_lt_len
      exact_mod_cast hi
    exact le_min hP (by omega)
  have hpc : rows.map TimelineRow.pointCount = rows₀.map TimelineRow.pointCount := by
    have h2 := congrArg (List.map (fun t : ℚ × ℚ × ℤ × ℤ × ℚ => t.2.2.2.1)) hsh
    simpa [List.map_map, Function.comp, rowShape] using h2
  refine ⟨rows, hmain, ?_, ?_, ?_, ?_, ?_, ?_⟩
  · rw [hlen, hlen₀]
    norm_cast
  · rw [hpc, hsum₀]
  · intro i hi hi1
    have hi₀ : i < rows₀.length := by omega
    have hsh_i := map_get_of_map_eq hsh i hi hi₀
    have hpc_i : (rows.get ⟨i, hi⟩).pointCount = (rows₀.get ⟨i, hi₀⟩).pointCount :=
      congrArg (fun t : ℚ × ℚ × ℤ × ℤ × ℚ => t.2.2.2.1) hsh_i
    rw [hpc_i, hr0 i hi₀]
    simp only [specRow, mkTimelineRow]
    exact hminP i (by omega)
  · intro r hr
    obtain ⟨⟨i, hi⟩, rfl⟩ := List.mem_iff_get.mp hr
    have hi₀ : i < rows₀.length := by omega
    have hsh_i := map_get_of_map_eq hsh i hi hi₀
    have hpc_i : (rows.get ⟨i, hi⟩).pointCount = (rows₀.get ⟨i, hi₀⟩).pointCount :=
      congrArg (fun t : ℚ × ℚ × ℤ × ℤ × ℚ => t.2.2.2.1) hsh_i
    rw [hpc_i, hr0 i hi₀]
    simp only [specRow, mkTimelineRow]
    exact lt_of_lt_of_le Int.zero_lt_one (hmin1 i hi₀)
  · intro i hi1
    have hi : i < rows.length := Nat.lt_of_succ_lt hi1
    have hi₀ : i < rows₀.length := by omega
    have hi1₀ : i + 1 < rows₀.length := by omega
    have hsh_i := map_get_of_map_eq hsh i hi hi₀
    have hsh_i1 := map_get_of_map_eq hsh (i + 1) hi1 hi1₀
    have hend_i : (rows.get ⟨i, hi⟩).endTime = (rows₀.get ⟨i, hi₀⟩).endTime :=
      congrArg (fun t : ℚ × ℚ × ℤ × ℤ × ℚ => t.2.1) hsh_i
    have hstart_i1 : (rows.get ⟨i + 1, hi1⟩).startTime =
        (rows₀.get ⟨i + 1, hi1₀⟩).startTime :=
      congrArg (fun t : ℚ × ℚ × ℤ × ℤ × ℚ => t.1) hsh_i1
    rw [hend_i, hstart_i1, hr0 i hi₀, hr0 (i + 1) hi1₀]
    simp only [specRow, mkTimelineRow]
    rw [hminP i hi1₀]
    push_cast
    ring
  · intro r hr
    obtain ⟨⟨i, hi⟩, rfl⟩ := List.mem_iff_get.mp hr
    have hi₀ : i < rows₀.length := by omega
    have hsh_i := map_get_of_map_eq hsh i hi hi₀
    have h1 : (rows.get ⟨i, hi⟩).startTime = (rows₀.get ⟨i, hi₀⟩).startTime :=
      congrArg (fun t : ℚ × ℚ × ℤ × ℤ × ℚ => t.1) hsh_i
    have h2 : (rows.get ⟨i, hi⟩).endTime = (rows₀.get ⟨i, hi₀⟩).endTime :=
      congrArg (fun t : ℚ × ℚ × ℤ × ℤ × ℚ => t.2.1) hsh_i
    have h3 : (rows.get ⟨i, hi⟩).startPoint = (rows₀.get ⟨i, hi₀⟩).startPoint :=
      congrArg (fun t : ℚ × ℚ × ℤ × ℤ × ℚ => t.2.2.1) hsh_i
    have h4 : (rows.get ⟨i, hi⟩).pointCount = (rows₀.get ⟨i, hi₀⟩).pointCount :=
      congrArg (fun t : ℚ × ℚ × ℤ × ℤ × ℚ => t.2.2.2.1) hsh_i
    have h5 : (rows.get ⟨i, hi⟩).width = (rows₀.get ⟨i, hi₀⟩).width :=
      congrArg (fun t : ℚ × ℚ × ℤ × ℤ × ℚ => t.2.2.2.2) hsh_i
    rw [h1, h2, h3, h4, h5, hr0 i hi₀]
    simp [specRow, mkTimelineRow]

/-! ## C3: cues starting at or beyond the end of the last row -/

theorem findIndex_eq_none {α : Type} (p : α → Bool) :
    ∀ (l : List α), (∀ a ∈ l, p a = false) → findIndex p l = none := by
  intro l
  induction l with
  | nil => intro _; rfl
  | cons a as ih =>
    intro hall
    have ha := hall a (List.mem_cons_self a as)
    simp [findIndex, ha, ih fun b hb => hall b (List.mem_cons_of_mem a hb)]

theorem assignSubtitle_adds_to_row0 (config : TimelineConfig) (index : ℕ)
    (c : SubtitleCue) (r0 : TimelineRow) (rest : List TimelineRow)
    (hfar : ∀ r ∈ r0 :: rest, r.endTime ≤ c.start)
    (hend : r0.startTime ≤ c.«end») :
    assignSubtitle config (r0 :: rest) index c =
      some ({ r0 with subtitles := r0.subtitles ++ [mkSegment config r0 index c] } :: rest) := by
  have hnone : findIndex (rowContains c) (r0 :: rest) = none := by
    apply findIndex_eq_none
    intro r hr
    have := hfar r hr
    simp only [rowContains, decide_eq_false_iff_not]
    rintro ⟨-, h2⟩
    linarith
  have hnneg : ¬ c.«end» < r0.startTime := by linarith
  unfold assignSubtitle
  rw [hnone]
  simp only [hnneg, if_neg, not_false_iff]
  rfl

theorem assignSubtitle_head_mem {config : TimelineConfig} {rows rows' : List TimelineRow}
    {index : ℕ} {s : SubtitleCue} {seg : SubtitleSegment}
    (h : assignSubtitle config rows index s = some rows')
    (hmem : ∀ r0 ∈ rows.head?, seg ∈ r0.subtitles) :
    ∀ r0' ∈ rows'.head?, seg ∈ r0'.subtitles := by
  unfold assignSubtitle at h
  rcases hfi : findIndex (rowContains s) rows with _ | rowIndex
  · rw [hfi] at h
    rcases rows with _ | ⟨r0, rest⟩
    · exact absurd h (by simp)
    · by_cases hskip : s.«end» < r0.startTime
      · simp only [hskip, if_pos] at h
        cases h
        exact hmem
      · simp only [hskip, if_neg, not_false_iff] at h
        cases h
        intro r0' hr0'
        simp only [pushSegment, listModify, List.head?_cons, Option.mem_def,
          Option.some.injEq] at hr0'
        subst hr0'
        exact List.mem_append_left _ (hmem r0 (by simp))
  · rw [hfi] at h
    cases h
    rcases rows with _ | ⟨r0, rest⟩
    · simp [pushSegment, listModify]
    · cases rowIndex with
      | zero =>
        intro r0' hr0'
        simp only [pushSegment, listModify, List.head?_cons, Option.mem_def,
          Option.some.injEq] at hr0'
        subst hr0'
        exact List.mem_append_left _ (hmem r0 (by simp))
      | succ n =>
        intro r0' hr0'
        simp only [pushSegment, listModify, List.head?_cons, Option.mem_def,
          Option.some.injEq] at hr0'
        subst hr0'
        exact hmem r0 (by simp)

theorem assignSubtitles_head_mem {config : TimelineConfig} {seg : SubtitleSegment} :
    ∀ {l : List (ℕ × SubtitleCue)} {rows rows' : List TimelineRow},
      assignSubtitles config l rows = some rows' →
      (∀ r0 ∈ rows.head?, seg ∈ r0.subtitles) →
      ∀ r0' ∈ rows'.head?, seg ∈ r0'.subtitles := by
  intro l
  induction l with
  | nil => intro rows rows' h hmem; cases h; exact hmem
  | cons p rest ih =>
    intro rows rows' h hmem
    obtain ⟨index, s⟩ := p
    unfold assignSubtitles at h
    rcases ha : assignSubtitle config rows index s with _ | rows₁
    · rw [ha] at h; cases h
    · rw [ha] at h
      exact ih h (assignSubtitle_head_mem ha hmem)

theorem forall_endTime_of_shape {rows rows₁ : List TimelineRow}
    (hsh : rows₁.map rowShape = rows.map rowShape) {q : ℚ}
    (hfar : ∀ r ∈ rows, r.endTime ≤ q) : ∀ r ∈ rows₁, r.endTime ≤ q := by
  intro r hr
  have h1 : rowShape r ∈ rows.map rowShape := by
    rw [← hsh]
    exact List.mem_map_of_mem rowShape hr
  obtain ⟨r', hr', hshr⟩ := List.mem_map.mp h1
  have h2 : r'.endTime = r.endTime :=
    congrArg (fun t : ℚ × ℚ × ℤ × ℤ × ℚ => t.2.1) hshr
  rw [← h2]
  exact hfar r' hr'

theorem mem_enum_of_mem {α : Type} {a : α} {l : List α} (h : a ∈ l) :
    ∃ i, (i, a) ∈ l.enum := by
  obtain ⟨⟨i, hi⟩, rfl⟩ := List.mem_iff_get.mp h
  refine ⟨i, ?_⟩
  apply List.mem_iff_get.mpr
  refine ⟨⟨i, by simpa using hi⟩, ?_⟩
  simp [List.get_eq_getElem, List.getElem_enum]

theorem head_startTime_of_shape {rows rows₁ : List TimelineRow}
    (hsh : rows₁.map rowShape = rows.map rowShape) {q : ℚ}
    (hhead : ∀ r0 ∈ rows.head?, r0.startTime ≤ q) :
    ∀ r0 ∈ rows₁.head?, r0.startTime ≤ q := by
  intro r0 hr0
  rcases rows₁ with _ | ⟨r1, rest₁⟩
  · simp at hr0
  · rcases rows with _ | ⟨r0', rest'⟩
    · simp at hsh
    · simp only [List.head?_cons, Option.mem_def, Option.some.injEq] at hr0
      simp only [List.map_cons, List.cons.injEq] at hsh
      have h1 : r1.startTime = r0'.startTime :=
        congrArg (fun t : ℚ × ℚ × ℤ × ℤ × ℚ => t.1) hsh.1
      rw [← hr0, h1]
      exact hhead r0' (by simp)

theorem assignSubtitles_beyond (config : TimelineConfig) (c : SubtitleCue) :
    ∀ (l : List (ℕ × SubtitleCue)) (rows rows' : List TimelineRow),
      assignSubtitles config l rows = some rows' →
      (∃ index, (index, c) ∈ l) →
      (∀ r ∈ rows, r.endTime ≤ c.start) →
      (∀ r0 ∈ rows.head?, r0.startTime ≤ c.«end») →
      ∃ r0' rest', rows' = r0' :: rest' ∧
        ∃ seg ∈ r0'.subtitles, seg.start = c.start ∧ seg.«end» = c.«end» ∧
          seg.text = c.text := by
  intro l
  induction l with
  | nil =>
    intro rows rows' _ hmem _ _
    obtain ⟨index, hidx⟩ := hmem
    simp at hidx
  | cons p rest ih =>
    intro rows rows' h hmem hfar hhead
    obtain ⟨index, hidx⟩ := hmem
    obtain ⟨i₀, c₀⟩ := p
    unfold assignSubtitles at h
    rcases ha : assignSubtitle config rows i₀ c₀ with _ | rows₁
    · rw [ha] at h; cases h
    · rw [ha] at h
      have hsh₁ := assignSubtitle_shape ha
      rcases List.mem_cons.mp hidx with heq | hmemrest
      · injection heq with h1 h2
        subst h1
        subst h2
        rcases rows with _ | ⟨r0, rr⟩
        · exact absurd ha (by simp [assignSubtitle, findIndex])
        · have hadd := assignSubtitle_adds_to_row0 config index c r0 rr hfar
            (hhead r0 (by simp))
          have hrows₁ : rows₁ =
              { r0 with subtitles := r0.subtitles ++ [mkSegment config r0 index c] } :: rr := by
            have h2 := hadd.symm.trans ha
            exact ((Option.some.injEq _ _).mp h2).symm
          have hpers := @assignSubtitles_head_mem config (mkSegment config r0 index c) _ _ _ h
            (by
              intro r0₁ hr0₁
              rw [hrows₁] at hr0₁
              simp only [List.head?_cons, Option.mem_def, Option.some.injEq] at hr0₁
              subst hr0₁
              exact List.mem_append_right _ (List.mem_singleton_self _))
          have hsh' := assignSubtitles_shape h
          rcases hrows' : rows' with _ | ⟨r0', rest'⟩
          · rw [hrows', hrows₁] at hsh'
            simp at hsh'
          · refine ⟨r0', rest', rfl, mkSegment config r0 index c, ?_, rfl, rfl, rfl⟩
            apply hpers
            rw [hrows']
            simp
      · exact ih rows₁ rows' h ⟨index, hmemrest⟩
          (forall_endTime_of_shape hsh₁ hfar) (head_startTime_of_shape hsh₁ hhead)

/-- C3 (amended): a cue whose start lies at or beyond the end of the last
row (and whose end is not before the timeline) is **not** dropped: the
`rowIndex === -1` fallback assigns it to row 0, so a segment with the cue's
`start`, `end` and `text` appears in the first row's `subtitles`. -/
theorem C3_beyond_last_row_in_row0 (w : List ℚ) (subs : List SubtitleCue)
    (config : TimelineConfig) (c : SubtitleCue) (hw : w ≠ [])
    (hP : 0 < config.pointsPerRow) (hm : 0 < config.msPerPoint)
    (hmem : c ∈ subs) (hc : (w.length : ℚ) * config.msPerPoint ≤ c.start)
    (hce : 0 ≤ c.«end») :
    ∃ r0 rest, createTimelineRows (some w) (some subs) config = some (r0 :: rest) ∧
      ∃ seg ∈ r0.subtitles, seg.start = c.start ∧ seg.«end» = c.«end» ∧
        seg.text = c.text := by
  have hN1 : 1 ≤ (w.length : ℤ) := by
    have hne : w.length ≠ 0 := fun h0 => hw (List.length_eq_zero.mp h0)
    omega
  have hPQ : (0 : ℚ) < (config.pointsPerRow : ℚ) := by exact_mod_cast hP
  obtain ⟨rows₀, hrow⟩ := rowLoop_isSome config (w.length : ℤ) hP (w.length + 1) 0
    (by omega) (by omega)
  have h00 : ((0 : ℕ) : ℤ) * config.pointsPerRow = 0 := by simp
  obtain ⟨k, hk⟩ := rowLoop_eq_spec config (w.length : ℤ) hP (w.length + 1) 0 rows₀
    (by rw [h00]; exact hrow)
  have hk0 : rows₀ = (List.range k).map (fun i => specRow config (w.length : ℤ) i) := by
    rw [hk]
    apply List.map_congr_left
    intro i _
    simp
  have hlen₀ := rowLoop_length config (w.length : ℤ) hP (w.length + 1) 0 rows₀ (by omega) hrow
  rw [sub_zero] at hlen₀
  have hceil1 : 0 < ⌈((w.length : ℤ) : ℚ) / (config.pointsPerRow : ℚ)⌉ := by
    rw [Int.lt_ceil]
    push_cast
    apply div_pos _ hPQ
    exact_mod_cast hN1
  have hne₀ : rows₀ ≠ [] := by
    intro h0
    rw [h0] at hlen₀
    simp only [List.length_nil, Nat.cast_zero] at hlen₀
    omega
  -- every row of the first pass ends no later than the end of the waveform
  have hfar : ∀ r ∈ rows₀, r.endTime ≤ c.start := by
    intro r hr
    rw [hk0] at hr
    obtain ⟨i, _, rfl⟩ := List.mem_map.mp hr
    have hle : (i : ℤ) * config.pointsPerRow +
        min config.pointsPerRow ((w.length : ℤ) - (i : ℤ) * config.pointsPerRow) ≤
        (w.length : ℤ) := by
      have h2 := min_le_right config.pointsPerRow
        ((w.length : ℤ) - (i : ℤ) * config.pointsPerRow)
      omega
    have h3 : (specRow config (w.length : ℤ) i).endTime =
        (((i : ℤ) * config.pointsPerRow +
          min config.pointsPerRow ((w.length : ℤ) - (i : ℤ) * config.pointsPerRow) : ℤ) : ℚ) *
          config.msPerPoint := by
      simp only [specRow, mkTimelineRow]
      push_cast
      ring
    rw [h3]
    calc (((i : ℤ) * config.pointsPerRow +
        min config.pointsPerRow ((w.length : ℤ) - (i : ℤ) * config.pointsPerRow) : ℤ) : ℚ) *
          config.msPerPoint
        ≤ (w.length : ℚ) * config.msPerPoint := by
          apply mul_le_mul_of_nonneg_right _ hm.le
          exact_mod_cast hle
      _ ≤ c.start := hc
  -- the first row starts at time 0
  have hr0get : ∀ (hi : 0 < rows₀.length),
      rows₀.get ⟨0, hi⟩ = specRow config (w.length : ℤ) 0 := by
    intro hi
    simp only [List.get_eq_getElem]
    simp only [hk0]
    simp [List.getElem_map, List.getElem_range]
  have hhead : ∀ r0 ∈ rows₀.head?, r0.startTime ≤ c.«end» := by
    intro r0 hr0
    rcases hrows₀ : rows₀ with _ | ⟨rh, rt⟩
    · exact absurd hrows₀ hne₀
    · have hi : 0 < rows₀.length := by rw [hrows₀]; simp
      have hget := hr0get hi
      simp only [List.get_eq_getElem] at hget
      simp only [hrows₀, List.getElem_cons_zero] at hget
      rw [hrows₀] at hr0
      simp only [List.head?_cons, Option.mem_def, Option.some.injEq] at hr0
      rw [← hr0, hget]
      simp only [specRow, mkTimelineRow]
      simpa using hce
  obtain ⟨rows, hassign⟩ :=
    assignSubtitles_isSome config (sortByStart subs).enum rows₀ hne₀
  have hmain : createTimelineRows (some w) (some subs) config = some rows := by
    rw [createTimelineRows_run w (some subs) config hrow]
    simpa using hassign
  have hcsorted : c ∈ sortByStart subs := (sortByStart_perm subs).mem_iff.mpr hmem
  obtain ⟨index, hidx⟩ := mem_enum_of_mem hcsorted
  obtain ⟨r0', rest', hrows', hseg⟩ := assignSubtitles_beyond config c
    (sortByStart subs).enum rows₀ rows hassign ⟨index, hidx⟩ hfar hhead
  exact ⟨r0', rest', by rw [hmain, hrows'], hseg⟩

/-- C5 (amended): with a zero-length waveform, `createTimelineRows` returns
the empty row list only when the cue list is empty (or absent); with a
non-empty cue list the second pass reads `rows[0].startTime` of an empty
rows array — a `TypeError` (modelled as `none`), not a graceful empty
result. -/
theorem C5_zero_length_waveform (config : TimelineConfig)
    (subtitles : Option (List SubtitleCue)) :
    createTimelineRows (some []) subtitles config =
      if (subtitles.getD []).isEmpty then some [] else none := by
  rcases hsubs : subtitles.getD [] with _ | ⟨c, cs⟩
  · simp only [hsubs, List.isEmpty_nil, if_pos]
    unfold createTimelineRows createTimelineRowsFuel
    simp only [Option.getD_some, hsubs]
    rfl
  · simp only [hsubs, List.isEmpty_cons, if_neg, Bool.false_eq_true, not_false_iff]
    unfold createTimelineRows createTimelineRowsFuel
    simp only [Option.getD_some, hsubs]
    have hsort : ∃ d ds, sortByStart (c :: cs) = d :: ds := by
      have hlen : (sortByStart (c :: cs)).length = cs.length + 1 := by
        rw [sortByStart_length]
        rfl
      rcases hs : sortByStart (c :: cs) with _ | ⟨d, ds⟩
      · rw [hs] at hlen; simp at hlen
      · exact ⟨d, ds, rfl⟩
    obtain ⟨d, ds, hds⟩ := hsort
    rw [hds]
    have hrow0 : rowLoop config ((([] : List ℚ).length : ℤ))
        (([] : List ℚ).length + 1) 0 = some [] := rfl
    simp only [List.length_nil, Nat.cast_zero] at hrow0 ⊢
    rw [hrow0]
    rfl

/-! ## C4: non-positive `pointsPerRow` -/

theorem rowLoop_nonpos_none (config : TimelineConfig) (totalPoints : ℤ)
    (hP : config.pointsPerRow ≤ 0) :
    ∀ (fuel : ℕ) (current : ℤ), current ≤ 0 → 0 < totalPoints →
      rowLoop config totalPoints fuel current = none := by
  intro fuel
  induction fuel with
  | zero => intro current _ _; rfl
  | succ fuel ih =>
    intro current hcur htotal
    have hlt : current < totalPoints := by omega
    have hmin : min config.pointsPerRow (totalPoints - current) = config.pointsPerRow :=
      min_eq_left (by omega)
    simp only [rowLoop, hlt, if_pos, hmin, ih (current + config.pointsPerRow) (by omega) htotal,
      Option.map_none']

/-- C4 (amended): `createTimelineRows` performs no config validation.  With
`pointsPerRow ≤ 0` and a non-empty waveform the row-partition `while` loop
never terminates: for every fuel bound the computation produces no result
(there is no `InvalidConfig` error anywhere in the code — the call simply
diverges instead of failing fast). -/
theorem C4_no_invalid_config_error (fuel : ℕ) (w : List ℚ)
    (subtitles : Option (List SubtitleCue)) (config : TimelineConfig)
    (hP : config.pointsPerRow ≤ 0) (hw : w ≠ []) :
    createTimelineRowsFuel fuel (some w) subtitles config = none := by
  have hN1 : 0 < (w.length : ℤ) := by
    have hne : w.length ≠ 0 := fun h0 => hw (List.length_eq_zero.mp h0)
    omega
  unfold createTimelineRowsFuel
  have hloop := rowLoop_nonpos_none config (w.length : ℤ) hP fuel 0 le_rfl hN1
  simp [hloop]

/-! ## C9: the quantization rounds halves toward `+∞` -/

/-- C9 (amended): `roundToNearest100ms` uses `Math.round`, which rounds
half-integral arguments toward `+∞` (round-half-up), not away from zero:
every exact half `100·k + 50` rounds to `100·(k+1)`, also for negative `k`
(so for negative times a tie rounds toward zero, not away from it). -/
theorem C9_round_half_toward_posinf (k : ℤ) :
    roundToNearest100ms ((k : ℚ) * 100 + 50) = ((k : ℚ) + 1) * 100 := by
  unfold roundToNearest100ms jsRound
  have h1 : ((k : ℚ) * 100 + 50) / 100 + 1 / 2 = ((k + 1 : ℤ) : ℚ) := by
    push_cast
    ring
  rw [h1, Int.floor_intCast]
  push_cast
  ring

/-! ## C2: non-overlap and the timing adjuster -/

theorem overlaps_symm {a b : SubtitleCue} (h : Overlaps a b) : Overlaps b a := by
  unfold Overlaps at h ⊢
  rw [max_comm, min_comm]
  exact h

theorem nonOverlapping_of_endsBeforeStarts {l : List SubtitleCue}
    (h : ∀ (i j : ℕ) (hi : i < l.length) (hj : j < l.length), i < j →
      (l.get ⟨i, hi⟩).«end» ≤ (l.get ⟨j, hj⟩).start) :
    PairwiseNonOverlapping l := by
  rw [PairwiseNonOverlapping, List.pairwise_iff_getElem]
  intro i j hi hj hij
  have h2 := h i j hi hj hij
  simp only [List.get_eq_getElem] at h2
  intro hcon
  unfold Overlaps at hcon
  exact lt_irrefl _
    (lt_of_lt_of_le hcon (le_trans (min_le_left _ _) (le_trans h2 (le_max_right _ _))))

theorem endsBeforeStarts_of_sorted {l : List SubtitleCue}
    (hsorted : List.Sorted (fun a b : SubtitleCue => a.start ≤ b.start) l)
    (hwf : ∀ x ∈ l, x.start < x.«end»)
    (hno : PairwiseNonOverlapping l) :
    ∀ (i j : ℕ) (hi : i < l.length) (hj : j < l.length), i < j →
      (l.get ⟨i, hi⟩).«end» ≤ (l.get ⟨j, hj⟩).start := by
  intro i j hi hj hij
  have hs : (l.get ⟨i, hi⟩).start ≤ (l.get ⟨j, hj⟩).start := by
    have := (List.pairwise_iff_getElem.mp hsorted) i j hi hj hij
    simpa [List.get_eq_getElem] using this
  have hn : ¬ Overlaps (l.get ⟨i, hi⟩) (l.get ⟨j, hj⟩) := by
    have := (List.pairwise_iff_getElem.mp hno) i j hi hj hij
    simpa [List.get_eq_getElem] using this
  have hwfj : (l.get ⟨j, hj⟩).start < (l.get ⟨j, hj⟩).«end» :=
    hwf _ (List.get_mem l j hj)
  unfold Overlaps at hn
  push_neg at hn
  rw [max_eq_right hs] at hn
  rcases min_cases (l.get ⟨i, hi⟩).«end» (l.get ⟨j, hj⟩).«end» with ⟨hmin, _⟩ | ⟨hmin, hlt⟩
  · rw [hmin] at hn
    exact hn
  · rw [hmin] at hn
    exact absurd (lt_of_le_of_lt hn hwfj) (lt_irrefl _)

theorem listModify_of_le_length {α : Type} (f : α → α) :
    ∀ (n : ℕ) (l : List α), l.length ≤ n → listModify f n l = l := by
  intro n l
  induction l generalizing n with
  | nil => intro _; cases n <;> rfl
  | cons a as ih =>
    intro hn
    cases n with
    | zero => simp at hn
    | succ n => simp [listModify, ih n (by simpa using hn)]

/-- The element-wise description of `(listModify g n S).set k c`. -/
theorem get_listModify_set (g : SubtitleCue → SubtitleCue) (n : ℕ)
    (S : List SubtitleCue) (k : ℕ) (c : SubtitleCue) (hkn : k ≠ n)
    (m : ℕ) (hm : m < S.length)
    (hm' : m < ((listModify g n S).set k c).length) :
    ((listModify g n S).set k c).get ⟨m, hm'⟩ =
      if m = k then c else if n = m then g (S.get ⟨m, hm⟩) else S.get ⟨m, hm⟩ := by
  have hlen1 : (listModify g n S).length = S.length := length_listModify _ _ _
  by_cases hmk : m = k
  · subst hmk
    simp only [List.get_eq_getElem, List.getElem_set_self, if_pos]
  · simp only [List.get_eq_getElem]
    rw [List.getElem_set_ne (by omega : k ≠ m)]
    have h2 := get_listModify g n S m (by rw [hlen1]; exact hm) hm
    simp only [List.get_eq_getElem] at h2
    rw [h2]
    simp only [hmk, if_neg, not_false_iff, ite_false]

/-- Setting cue `k`'s end to `newEnd` after trimming the following cue's
start (any trim `g` that raises starts to at least `newEnd` and keeps ends)
preserves pairwise non-overlap, provided `newEnd` exceeds the cue's start
and does not pass the following cue's own end. -/
theorem set_trim_end_nonoverlap (S : List SubtitleCue) (k : ℕ) (hkS : k < S.length)
    (cur : SubtitleCue) (newEnd : ℚ) (g : SubtitleCue → SubtitleCue)
    (hchain : ∀ (i j : ℕ) (hi : i < S.length) (hj : j < S.length), i < j →
      (S.get ⟨i, hi⟩).«end» ≤ (S.get ⟨j, hj⟩).start)
    (hkstart : (S.get ⟨k, hkS⟩).start = cur.start)
    (hlt : cur.start < newEnd)
    (hguard : ∀ (hkl : k + 1 < S.length), newEnd ≤ (S.get ⟨k + 1, hkl⟩).«end»)
    (hg1 : ∀ x, (g x).«end» = x.«end»)
    (hg2 : ∀ x, newEnd ≤ (g x).start)
    (hg3 : ∀ x, x.start ≤ (g x).start) :
    PairwiseNonOverlapping ((listModify g (k + 1) S).set k { cur with «end» := newEnd }) := by
  have hlen1 : (listModify g (k + 1) S).length = S.length := length_listModify _ _ _
  have hlenout : ((listModify g (k + 1) S).set k { cur with «end» := newEnd }).length =
      S.length := by
    rw [List.length_set, hlen1]
  apply nonOverlapping_of_endsBeforeStarts
  intro i j hi hj hij
  have hiS : i < S.length := by rw [hlenout] at hi; exact hi
  have hjS : j < S.length := by rw [hlenout] at hj; exact hj
  rw [get_listModify_set g (k + 1) S k _ (by omega) i hiS hi,
    get_listModify_set g (k + 1) S k _ (by omega) j hjS hj]
  by_cases hik : i = k
  · rw [if_pos hik]
    have hjk : ¬ (j = k) := by omega
    rw [if_neg hjk]
    by_cases hjk1 : k + 1 = j
    · rw [if_pos hjk1]
      exact hg2 _
    · rw [if_neg hjk1]
      have hkl : k + 1 < S.length := by omega
      calc ({ cur with «end» := newEnd } : SubtitleCue).«end» = newEnd := rfl
        _ ≤ (S.get ⟨k + 1, hkl⟩).«end» := hguard hkl
        _ ≤ (S.get ⟨j, hjS⟩).start := hchain (k + 1) j hkl hjS (by omega)
  · rw [if_neg hik]
    by_cases hik1 : k + 1 = i
    · rw [if_pos hik1]
      have hjk : ¬ (j = k) := by omega
      have hjk1 : ¬ (k + 1 = j) := by omega
      rw [if_neg hjk, if_neg hjk1, hg1]
      exact hchain i j hiS hjS hij
    · rw [if_neg hik1]
      by_cases hjk : j = k
      · rw [if_pos hjk]
        have hij' : i < k := by omega
        calc (S.get ⟨i, hiS⟩).«end» ≤ (S.get ⟨k, hkS⟩).start := hchain i k hiS hkS hij'
          _ = cur.start := hkstart
      · rw [if_neg hjk]
        by_cases hjk1 : k + 1 = j
        · rw [if_pos hjk1]
          have hij' : i < k := by omega
          calc (S.get ⟨i, hiS⟩).«end» ≤ (S.get ⟨k, hkS⟩).start := hchain i k hiS hkS hij'
            _ = cur.start := hkstart
            _ ≤ newEnd := hlt.le
            _ ≤ (g (S.get ⟨j, hjS⟩)).start := hg2 _
        · rw [if_neg hjk1]
          exact hchain i j hiS hjS hij

/-- Setting cue `k`'s start to `newStart` after trimming the previous cue's
end (any trim `g` that lowers ends to at most `newStart` and keeps starts)
preserves pairwise non-overlap, provided `0 < k`, `newStart` stays below the
cue's end and at or after the previous cue's own start. -/
theorem set_trim_start_nonoverlap (S : List SubtitleCue) (k : ℕ) (hkS : k < S.length)
    (hk1 : 0 < k) (cur : SubtitleCue) (newStart : ℚ) (g : SubtitleCue → SubtitleCue)
    (hchain : ∀ (i j : ℕ) (hi : i < S.length) (hj : j < S.length), i < j →
      (S.get ⟨i, hi⟩).«end» ≤ (S.get ⟨j, hj⟩).start)
    (hkend : (S.get ⟨k, hkS⟩).«end» = cur.«end»)
    (hlt : newStart < cur.«end»)
    (hguard : ∀ (hkl : k - 1 < S.length), (S.get ⟨k - 1, hkl⟩).start ≤ newStart)
    (hg1 : ∀ x, (g x).start = x.start)
    (hg2 : ∀ x, (g x).«end» ≤ newStart) :
    PairwiseNonOverlapping ((listModify g (k - 1) S).set k { cur with start := newStart }) := by
  have hlen1 : (listModify g (k - 1) S).length = S.length := length_listModify _ _ _
  have hlenout : ((listModify g (k - 1) S).set k { cur with start := newStart }).length =
      S.length := by
    rw [List.length_set, hlen1]
  apply nonOverlapping_of_endsBeforeStarts
  intro i j hi hj hij
  have hiS : i < S.length := by rw [hlenout] at hi; exact hi
  have hjS : j < S.length := by rw [hlenout] at hj; exact hj
  rw [get_listModify_set g (k - 1) S k _ (by omega) i hiS hi,
    get_listModify_set g (k - 1) S k _ (by omega) j hjS hj]
  by_cases hik : i = k
  · rw [if_pos hik]
    have hjk : ¬ (j = k) := by omega
    have hjk1 : ¬ (k - 1 = j) := by omega
    rw [if_neg hjk, if_neg hjk1]
    calc ({ cur with start := newStart } : SubtitleCue).«end» = cur.«end» := rfl
      _ = (S.get ⟨k, hkS⟩).«end» := hkend.symm
      _ ≤ (S.get ⟨j, hjS⟩).start := by
          have hkj : k < j := by omega
          exact hchain k j hkS hjS hkj
  · rw [if_neg hik]
    by_cases hik1 : k - 1 = i
    · rw [if_pos hik1]
      by_cases hjk : j = k
      · rw [if_pos hjk]
        exact le_trans (hg2 _) (le_refl _)
      · rw [if_neg hjk]
        have hjk1 : ¬ (k - 1 = j) := by omega
        rw [if_neg hjk1]
        have hkj : k < j := by omega
        calc (g (S.get ⟨i, hiS⟩)).«end» ≤ newStart := hg2 _
          _ ≤ cur.«end» := hlt.le
          _ = (S.get ⟨k, hkS⟩).«end» := hkend.symm
          _ ≤ (S.get ⟨j, hjS⟩).start := hchain k j hkS hjS hkj
    · rw [if_neg hik1]
      by_cases hjk : j = k
      · rw [if_pos hjk]
        have hik' : i < k - 1 := by omega
        have hklS : k - 1 < S.length := by omega
        calc (S.get ⟨i, hiS⟩).«end» ≤ (S.get ⟨k - 1, hklS⟩).start :=
            hchain i (k - 1) hiS hklS hik'
          _ ≤ newStart := hguard hklS
      · rw [if_neg hjk]
        by_cases hjk1 : k - 1 = j
        · rw [if_pos hjk1]
          rw [hg1]
          exact hchain i j hiS hjS hij
        · rw [if_neg hjk1]
          exact hchain i j hiS hjS hij

/-- Setting cue `0`'s start (no previous cue exists, no trim happens)
preserves pairwise non-overlap. -/
theorem set_start_head_nonoverlap (S : List SubtitleCue) (hkS : 0 < S.length)
    (cur : SubtitleCue) (newStart : ℚ)
    (hchain : ∀ (i j : ℕ) (hi : i < S.length) (hj : j < S.length), i < j →
      (S.get ⟨i, hi⟩).«end» ≤ (S.get ⟨j, hj⟩).start)
    (hkend : (S.get ⟨0, hkS⟩).«end» = cur.«end») :
    PairwiseNonOverlapping (S.set 0 { cur with start := newStart }) := by
  have hlenout : (S.set 0 { cur with start := newStart }).length = S.length :=
    List.length_set ..
  apply nonOverlapping_of_endsBeforeStarts
  intro i j hi hj hij
  have hiS : i < S.length := by rw [hlenout] at hi; exact hi
  have hjS : j < S.length := by rw [hlenout] at hj; exact hj
  have hj0 : ¬ (j = 0) := by omega
  simp only [List.get_eq_getElem]
  rw [List.getElem_set_ne (by omega : 0 ≠ j)]
  by_cases hi0 : i = 0
  · subst hi0
    rw [List.getElem_set_self]
    calc ({ cur with start := newStart } : SubtitleCue).«end» = cur.«end» := rfl
      _ = (S.get ⟨0, hkS⟩).«end» := hkend.symm
      _ ≤ (S.get ⟨j, hjS⟩).start := hchain 0 j hkS hjS (by omega)
  · rw [List.getElem_set_ne (by omega : 0 ≠ i)]
    have := hchain i j hiS hjS hij
    simpa [List.get_eq_getElem] using this

/-- C2 (amended): a successful `adjustSubtitleTiming` call preserves
pairwise non-overlap of a well-formed cue collection **provided** the
adjustment moves the boundary toward the neighbour that the code checks
(`delta < 0` when adjusting a start, `delta > 0` when adjusting an end) and
the quantized boundary does not pass the adjacent cue's far boundary (the
previous cue's start, resp. the next cue's end).  Without those provisos the
collision resolution — which trims only the immediately adjacent cue, and
only when the raw `amount` moves toward it — can produce overlapping cues. -/
theorem C2_adjustTiming_nonoverlap (subs : List SubtitleCue) (subtitleIndex : ℕ)
    (adjustType : AdjustType) (amount : ℚ) (out : List SubtitleCue)
    (h : subtitleIndex < subs.length)
    (hwf : ∀ x ∈ subs, x.start < x.«end»)
    (hno : PairwiseNonOverlapping subs)
    (k : ℕ)
    (hk : findIndex (sameCue (subs.get ⟨subtitleIndex, h⟩)) (sortByStart subs) = some k)
    (hdir : match adjustType with
      | .startTime => amount < 0 ∧
          ∀ (hk1 : 0 < k) (hkl : k - 1 < (sortByStart subs).length),
            ((sortByStart subs).get ⟨k - 1, hkl⟩).start ≤
              max 0 (roundToNearest100ms ((subs.get ⟨subtitleIndex, h⟩).start + amount))
      | .endTime => 0 < amount ∧
          ∀ (hkl : k + 1 < (sortByStart subs).length),
            roundToNearest100ms ((subs.get ⟨subtitleIndex, h⟩).«end» + amount) ≤
              ((sortByStart subs).get ⟨k + 1, hkl⟩).«end»)
    (hsucc : adjustSubtitleTiming subs subtitleIndex adjustType amount = some out) :
    PairwiseNonOverlapping out := by
  have hperm := sortByStart_perm subs
  obtain ⟨hkS, hpred⟩ := findIndex_eq_some _ _ _ hk
  have hsame : ((sortByStart subs).get ⟨k, hkS⟩).start = (subs.get ⟨subtitleIndex, h⟩).start ∧
      ((sortByStart subs).get ⟨k, hkS⟩).«end» = (subs.get ⟨subtitleIndex, h⟩).«end» := by
    unfold sameCue at hpred
    simp only [decide_eq_true_eq] at hpred
    exact ⟨hpred.1, hpred.2.1⟩
  have hnoS : PairwiseNonOverlapping (sortByStart subs) := by
    unfold PairwiseNonOverlapping at hno ⊢
    exact (hperm.pairwise_iff (fun hab ho => hab (overlaps_symm ho))).mpr hno
  have hwfS : ∀ x ∈ sortByStart subs, x.start < x.«end» := fun x hx =>
    hwf x (hperm.mem_iff.mp hx)
  have hchain := endsBeforeStarts_of_sorted (sortByStart_sorted subs) hwfS hnoS
  unfold adjustSubtitleTiming at hsucc
  rw [dif_pos h] at hsucc
  simp only [hk] at hsucc
  cases adjustType with
  | startTime =>
    obtain ⟨hamt, hguard⟩ := hdir
    by_cases hrej : (subs.get ⟨subtitleIndex, h⟩).«end» ≤
        max 0 (roundToNearest100ms ((subs.get ⟨subtitleIndex, h⟩).start + amount))
    · simp only [hrej, if_pos] at hsucc
      cases hsucc
    · simp only [hrej, if_neg, not_false_iff, ite_false] at hsucc
      have hlt : max 0 (roundToNearest100ms ((subs.get ⟨subtitleIndex, h⟩).start + amount)) <
          (subs.get ⟨subtitleIndex, h⟩).«end» := not_le.mp hrej
      by_cases htrim : 0 < k
      · rw [if_pos ⟨hamt, htrim⟩] at hsucc
        cases hsucc
        apply set_trim_start_nonoverlap (sortByStart subs) k hkS htrim
          (subs.get ⟨subtitleIndex, h⟩) _ _ hchain hsame.2 hlt
          (fun hkl => hguard htrim hkl)
        · intro x
          dsimp only
          by_cases hx : max 0 (roundToNearest100ms
              ((subs.get ⟨subtitleIndex, h⟩).start + amount)) < x.«end»
          · rw [if_pos hx]
          · rw [if_neg hx]
        · intro x
          dsimp only
          by_cases hx : max 0 (roundToNearest100ms
              ((subs.get ⟨subtitleIndex, h⟩).start + amount)) < x.«end»
          · rw [if_pos hx]
          · rw [if_neg hx]
            exact le_of_not_lt hx
      · rw [if_neg (by tauto)] at hsucc
        cases hsucc
        have hk0 : k = 0 := by omega
        subst hk0
        exact set_start_head_nonoverlap (sortByStart subs) hkS
          (subs.get ⟨subtitleIndex, h⟩) _ hchain hsame.2
  | endTime =>
    obtain ⟨hamt, hguard⟩ := hdir
    by_cases hrej : roundToNearest100ms ((subs.get ⟨subtitleIndex, h⟩).«end» + amount) ≤
        (subs.get ⟨subtitleIndex, h⟩).start
    · simp only [hrej, if_pos] at hsucc
      cases hsucc
    · simp only [hrej, if_neg, not_false_iff, ite_false] at hsucc
      have hlt : (subs.get ⟨subtitleIndex, h⟩).start <
          roundToNearest100ms ((subs.get ⟨subtitleIndex, h⟩).«end» + amount) := not_le.mp hrej
      have hg1 : ∀ x : SubtitleCue,
          ((fun nextSubtitle => if nextSubtitle.start <
              roundToNearest100ms ((subs.get ⟨subtitleIndex, h⟩).«end» + amount) then
              { nextSubtitle with start :=
                roundToNearest100ms ((subs.get ⟨subtitleIndex, h⟩).«end» + amount) }
            else nextSubtitle) x).«end» = x.«end» := by
        intro x
        dsimp only
        by_cases hx : x.start <
            roundToNearest100ms ((subs.get ⟨subtitleIndex, h⟩).«end» + amount)
        · rw [if_pos hx]
        · rw [if_neg hx]
      have hg2 : ∀ x : SubtitleCue,
          roundToNearest100ms ((subs.get ⟨subtitleIndex, h⟩).«end» + amount) ≤
          ((fun nextSubtitle => if nextSubtitle.start <
              roundToNearest100ms ((subs.get ⟨subtitleIndex, h⟩).«end» + amount) then
              { nextSubtitle with start :=
                roundToNearest100ms ((subs.get ⟨subtitleIndex, h⟩).«end» + amount) }
            else nextSubtitle) x).start := by
        intro x
        dsimp only
        by_cases hx : x.start <
            roundToNearest100ms ((subs.get ⟨subtitleIndex, h⟩).«end» + amount)
        · rw [if_pos hx]
        · rw [if_neg hx]
          exact le_of_not_lt hx
      have hg3 : ∀ x : SubtitleCue, x.start ≤
          ((fun nextSubtitle => if nextSubtitle.start <
              roundToNearest100ms ((subs.get ⟨subtitleIndex, h⟩).«end» + amount) then
              { nextSubtitle with start :=
                roundToNearest100ms ((subs.get ⟨subtitleIndex, h⟩).«end» + amount) }
            else nextSubtitle) x).start := by
        intro x
        dsimp only
        by_cases hx : x.start <
            roundToNearest100ms ((subs.get ⟨subtitleIndex, h⟩).«end» + amount)
        · rw [if_pos hx]
          exact hx.le
        · rw [if_neg hx]
      by_cases htrim : k < (sortByStart subs).length - 1
      · rw [if_pos ⟨hamt, htrim⟩] at hsucc
        cases hsucc
        exact set_trim_end_nonoverlap (sortByStart subs) k hkS
          (subs.get ⟨subtitleIndex, h⟩) _ _ hchain hsame.1 hlt
          (fun hkl => hguard hkl) hg1 hg2 hg3
      · rw [if_neg (by tauto)] at hsucc
        cases hsucc
        have hmod : listModify (fun nextSubtitle => if nextSubtitle.start <
            roundToNearest100ms ((subs.get ⟨subtitleIndex, h⟩).«end» + amount) then
            { nextSubtitle with start :=
              roundToNearest100ms ((subs.get ⟨subtitleIndex, h⟩).«end» + amount) }
          else nextSubtitle) (k + 1) (sortByStart subs) = sortByStart subs :=
          listModify_of_le_length _ _ _ (by omega)
        rw [← hmod]
        exact set_trim_end_nonoverlap (sortByStart subs) k hkS
          (subs.get ⟨subtitleIndex, h⟩) _ _ hchain hsame.1 hlt
          (fun hkl => absurd hkl (by omega)) hg1 hg2 hg3

/-! ## C7: rejected adjustments mutate nothing -/

/-- C7: when the proposed quantized boundary would invert the target cue's
ordering (clamped new start at or past the old end, resp. new end at or
before the old start), `adjustSubtitleTiming` returns the failure signal
(`none` — the projectʼs cue collection is not written, `return false`). -/
theorem C7_rejected_adjustment (subs : List SubtitleCue) (subtitleIndex : ℕ)
    (adjustType : AdjustType) (amount : ℚ) (h : subtitleIndex < subs.length)
    (hrej : (adjustType = AdjustType.startTime ∧
        (subs.get ⟨subtitleIndex, h⟩).«end» ≤
          max 0 (roundToNearest100ms ((subs.get ⟨subtitleIndex, h⟩).start + amount))) ∨
      (adjustType = AdjustType.endTime ∧
        roundToNearest100ms ((subs.get ⟨subtitleIndex, h⟩).«end» + amount) ≤
          (subs.get ⟨subtitleIndex, h⟩).start)) :
    adjustSubtitleTiming subs subtitleIndex adjustType amount = none := by
  unfold adjustSubtitleTiming
  rw [dif_pos h]
  rcases hfi : findIndex (sameCue (subs.get ⟨subtitleIndex, h⟩)) (sortByStart subs)
      with _ | k
  · simp only [hfi]
  · simp only [hfi]
    rcases hrej with ⟨hty, hcond⟩ | ⟨hty, hcond⟩ <;> subst hty <;>
      simp only [hcond, if_pos]

/-! ## C8: splitting a cue's text on blank lines -/

theorem splitLoop_spec (cur : SubtitleCue) (D C : ℚ) :
    ∀ (parts : List String) (s : ℚ), parts ≠ [] →
      s = cur.«end» - D * ((((parts.map String.length).sum : ℕ) : ℚ)) / C →
      (splitLoop cur D C s parts).length = parts.length ∧
      (∀ y ∈ (splitLoop cur D C s parts).head?, y.start = s) ∧
      (∀ y ∈ (splitLoop cur D C s parts).getLast?, y.«end» = cur.«end») ∧
      List.Chain' (fun a b => a.«end» = b.start) (splitLoop cur D C s parts) ∧
      (∀ (j : ℕ) (hj : j < (splitLoop cur D C s parts).length) (hj' : j < parts.length),
        ((splitLoop cur D C s parts).get ⟨j, hj⟩).text = parts.get ⟨j, hj'⟩ ∧
        ((splitLoop cur D C s parts).get ⟨j, hj⟩).«end» -
            ((splitLoop cur D C s parts).get ⟨j, hj⟩).start =
          D * (((parts.get ⟨j, hj'⟩).length : ℕ) : ℚ) / C) := by
  intro parts
  induction parts with
  | nil => intro s hne _; exact absurd rfl hne
  | cons part rest ih =>
    intro s _ hs
    rcases rest with _ | ⟨part', rest'⟩
    · refine ⟨rfl, ?_, ?_, ?_, ?_⟩
      · intro y hy
        simp only [splitLoop, List.head?_cons, Option.mem_def, Option.some.injEq] at hy
        rw [← hy]
      · intro y hy
        simp only [splitLoop, List.getLast?_singleton, Option.mem_def,
          Option.some.injEq] at hy
        rw [← hy]
      · simp [splitLoop]
      · intro j hj hj'
        simp only [splitLoop, List.length_singleton] at hj
        interval_cases j
        constructor
        · simp [splitLoop]
        · simp only [splitLoop, List.get_eq_getElem, List.getElem_cons_zero,
            List.getElem_singleton]
          rw [hs]
          simp only [List.map_cons, List.map_nil, List.sum_cons, List.sum_nil]
          push_cast
          ring
    · have hstep : splitLoop cur D C s (part :: part' :: rest') =
          { id := none, start := s, «end» := s + D * ((part.length : ℚ) / C),
            text := part, settings := cur.settings } ::
            splitLoop cur D C (s + D * ((part.length : ℚ) / C)) (part' :: rest') := rfl
      have hs' : s + D * ((part.length : ℚ) / C) =
          cur.«end» - D * (((((part' :: rest').map String.length).sum : ℕ) : ℚ)) / C := by
        rw [hs]
        simp only [List.map_cons, List.sum_cons]
        push_cast
        ring
      obtain ⟨ihlen, ihhead, ihlast, ihchain, ihget⟩ :=
        ih (s + D * ((part.length : ℚ) / C)) (by simp) hs'
      have hne' : splitLoop cur D C (s + D * ((part.length : ℚ) / C)) (part' :: rest') ≠ [] := by
        intro h0
        rw [h0] at ihlen
        simp at ihlen
      refine ⟨?_, ?_, ?_, ?_, ?_⟩
      · rw [hstep]
        simp [ihlen]
      · intro y hy
        rw [hstep] at hy
        simp only [List.head?_cons, Option.mem_def, Option.some.injEq] at hy
        rw [← hy]
      · intro y hy
        rw [hstep] at hy
        rcases hl : splitLoop cur D C (s + D * ((part.length : ℚ) / C)) (part' :: rest')
            with _ | ⟨b, L⟩
        · exact absurd hl hne'
        · rw [hl, List.getLast?_cons_cons] at hy
          apply ihlast
          rw [hl]
          exact hy
      · rw [hstep]
        rw [List.chain'_cons']
        refine ⟨?_, ihchain⟩
        intro y hy
        have := ihhead y hy
        rw [this]
      · intro j hj hj'
        have hj₂ : j < (splitLoop cur D C s (part :: part' :: rest')).length := hj
        simp only [List.get_eq_getElem]
        simp only [hstep] at hj₂ ⊢
        cases j with
        | zero =>
          simp only [List.getElem_cons_zero]
          constructor
          · trivial
          · push_cast
            ring
        | succ j =>
          simp only [List.getElem_cons_succ]
          have hj₁ : j < (splitLoop cur D C (s + D * ((part.length : ℚ) / C))
              (part' :: rest')).length := by
            simp only [List.length_cons] at hj₂
            omega
          have hj₁' : j < (part' :: rest').length := by
            simp only [List.length_cons] at hj' ⊢
            omega
          have hres := ihget j hj₁ hj₁'
          simp only [List.get_eq_getElem] at hres
          simpa using hres

/-- C8: editing a cue's text to blank-line-separated segments replaces it by
one cue per non-empty segment: boundaries are chained, the first segment
inherits the original start, the last inherits the original end exactly, and
every segment's duration is `totalDuration * segmentChars / totalChars`
(exactly, in the rational model). -/
theorem C8_text_split (subs : List SubtitleCue) (subtitleIndex : ℕ) (newText : String)
    (h : subtitleIndex < subs.length)
    (htrim : ¬ jsTrim newText.data = [])
    (hsplit : (splitBlankLines newText.data).length ≠ 1)
    (hparts : 1 < (splitParts newText).length) :
    ∃ segs, updateSubtitleText subs subtitleIndex newText =
        some (subs.take subtitleIndex ++ segs ++ subs.drop (subtitleIndex + 1)) ∧
      segs.length = (splitParts newText).length ∧
      (∀ y ∈ segs.head?, y.start = (subs.get ⟨subtitleIndex, h⟩).start) ∧
      (∀ y ∈ segs.getLast?, y.«end» = (subs.get ⟨subtitleIndex, h⟩).«end») ∧
      List.Chain' (fun a b => a.«end» = b.start) segs ∧
      (∀ (j : ℕ) (hj : j < segs.length) (hj' : j < (splitParts newText).length),
        (segs.get ⟨j, hj⟩).text = (splitParts newText).get ⟨j, hj'⟩ ∧
        (segs.get ⟨j, hj⟩).«end» - (segs.get ⟨j, hj⟩).start =
          ((subs.get ⟨subtitleIndex, h⟩).«end» - (subs.get ⟨subtitleIndex, h⟩).start) *
            ((((splitParts newText).get ⟨j, hj'⟩).length : ℕ) : ℚ) /
            ((((splitParts newText).map String.length).sum : ℕ) : ℚ)) := by
  have hne : splitParts newText ≠ [] := by
    intro h0
    rw [h0] at hparts
    simp at hparts
  have hCpos : 0 < ((splitParts newText).map String.length).sum := by
    rcases hp : splitParts newText with _ | ⟨p, ps⟩
    · exact absurd hp hne
    · have hmem : p ∈ splitParts newText := by
        rw [hp]
        exact List.mem_cons_self p ps
      have hfilter := List.of_mem_filter hmem
      have hplen : 0 < p.length := by simpa using hfilter
      simp only [List.map_cons, List.sum_cons]
      omega
  have hCne : ((((splitParts newText).map String.length).sum : ℕ) : ℚ) ≠ 0 :=
    Nat.cast_ne_zero.mpr (by omega)
  have hs0 : (subs.get ⟨subtitleIndex, h⟩).start =
      (subs.get ⟨subtitleIndex, h⟩).«end» -
        ((subs.get ⟨subtitleIndex, h⟩).«end» - (subs.get ⟨subtitleIndex, h⟩).start) *
          ((((splitParts newText).map String.length).sum : ℕ) : ℚ) /
          ((((splitParts newText).map String.length).sum : ℕ) : ℚ) := by
    rw [mul_div_assoc, div_self hCne, mul_one]
    ring
  obtain ⟨hlen, hhead, hlast, hchain, hget⟩ := splitLoop_spec (subs.get ⟨subtitleIndex, h⟩)
    ((subs.get ⟨subtitleIndex, h⟩).«end» - (subs.get ⟨subtitleIndex, h⟩).start)
    ((((splitParts newText).map String.length).sum : ℕ) : ℚ)
    (splitParts newText) ((subs.get ⟨subtitleIndex, h⟩).start) hne hs0
  refine ⟨_, ?_, hlen, hhead, hlast, hchain, hget⟩
  unfold updateSubtitleText
  rw [dif_pos h]
  simp only [if_neg htrim, if_pos hsplit, if_pos hparts]

/-! ## Concrete examples, counterexamples and witnesses -/

/-- C6: on the spec's concrete example, increasing the first cue's end by
`+500` moves it to `2500` and clamps the second cue's start up to `2500`,
so `end₁ = start₂` afterwards. -/
theorem C6_collision_example :
    adjustSubtitleTiming
      [{ id := none, start := 1000, «end» := 2000, text := "a", settings := none },
       { id := none, start := 2000, «end» := 3000, text := "b", settings := none }]
      0 AdjustType.endTime 500 =
    some
      [{ id := none, start := 1000, «end» := 2500, text := "a", settings := none },
       { id := none, start := 2500, «end» := 3000, text := "b", settings := none }] := by
  norm_num [adjustSubtitleTiming, sortByStart, List.insertionSort, List.orderedInsert,
    findIndex, sameCue, listModify, roundToNearest100ms, jsRound]

/-- C2 counterexample: a pairwise non-overlapping three-cue collection, a
successful start adjustment jumping past the middle cue — only the
immediate neighbour is trimmed, and the result overlaps. -/
theorem C2_counterexample :
    PairwiseNonOverlapping
      [{ id := none, start := 0, «end» := 1000, text := "a", settings := none },
       { id := none, start := 1000, «end» := 2000, text := "b", settings := none },
       { id := none, start := 2000, «end» := 3000, text := "c", settings := none }] ∧
    adjustSubtitleTiming
      [{ id := none, start := 0, «end» := 1000, text := "a", settings := none },
       { id := none, start := 1000, «end» := 2000, text := "b", settings := none },
       { id := none, start := 2000, «end» := 3000, text := "c", settings := none }]
      2 AdjustType.startTime (-1900) =
    some
      [{ id := none, start := 0, «end» := 1000, text := "a", settings := none },
       { id := none, start := 1000, «end» := 100, text := "b", settings := none },
       { id := none, start := 100, «end» := 3000, text := "c", settings := none }] ∧
    ¬ PairwiseNonOverlapping
      [{ id := none, start := 0, «end» := 1000, text := "a", settings := none },
       { id := none, start := 1000, «end» := 100, text := "b", settings := none },
       { id := none, start := 100, «end» := 3000, text := "c", settings := none }] := by
  refine ⟨?_, ?_, ?_⟩
  · norm_num [PairwiseNonOverlapping, Overlaps, List.pairwise_cons]
  · norm_num [adjustSubtitleTiming, sortByStart, List.insertionSort, List.orderedInsert,
      findIndex, sameCue, listModify, roundToNearest100ms, jsRound]
  · intro hcon
    unfold PairwiseNonOverlapping at hcon
    rw [List.pairwise_cons] at hcon
    have h2 := hcon.1
      { id := none, start := 100, «end» := 3000, text := "c", settings := none } (by simp)
    apply h2
    norm_num [Overlaps]

/-- C2 witness: in the benign direction (end adjustment, positive delta, new
end within the next cue's extent) the preserved-invariant theorem applies. -/
theorem C2_adjustTiming_nonoverlap_witness :
    PairwiseNonOverlapping
      [{ id := none, start := 1000, «end» := 2500, text := "a", settings := none },
       { id := none, start := 2500, «end» := 3000, text := "b", settings := none }] := by
  refine C2_adjustTiming_nonoverlap
    [{ id := none, start := 1000, «end» := 2000, text := "a", settings := none },
     { id := none, start := 2000, «end» := 3000, text := "b", settings := none }]
    0 AdjustType.endTime 500
    [{ id := none, start := 1000, «end» := 2500, text := "a", settings := none },
     { id := none, start := 2500, «end» := 3000, text := "b", settings := none }]
    (by norm_num) ?_ ?_ 0 ?_ ?_ ?_
  · intro x hx
    simp only [List.mem_cons, List.not_mem_nil, or_false] at hx
    rcases hx with rfl | rfl <;> norm_num
  · norm_num [PairwiseNonOverlapping, Overlaps, List.pairwise_cons]
  · norm_num [sortByStart, List.insertionSort, List.orderedInsert, findIndex, sameCue]
  · refine ⟨by norm_num, ?_⟩
    intro hkl
    norm_num [sortByStart, List.insertionSort, List.orderedInsert, roundToNearest100ms,
      jsRound]
  · norm_num [adjustSubtitleTiming, sortByStart, List.insertionSort, List.orderedInsert,
      findIndex, sameCue, listModify, roundToNearest100ms, jsRound]

/-- C9 counterexample: at the negative half `-250` the quantizer returns
`-200` (toward `+∞` / toward zero), not the away-from-zero value `-300`. -/
theorem C9_counterexample :
    roundToNearest100ms (-250) = -200 ∧ roundToNearest100ms (-250) ≠ -300 := by
  norm_num [roundToNearest100ms, jsRound]

/-- C3 counterexample: on a one-point waveform, a cue starting at `200 ms` —
beyond the last row's end (`100 ms`) — is not dropped: it is assigned to
row 0 (with an offset past the row's width). -/
theorem C3_counterexample :
    createTimelineRows (some [1])
      (some [{ id := some "x1", start := 200, «end» := 300, text := "x", settings := none }])
      defaultConfig =
    some [{ startTime := 0, endTime := 100, startPoint := 0, pointCount := 1, width := 8,
            subtitles := [{ id := "x1", start := 200, «end» := 300, text := "x",
                            startOffsetInRow := 16, width := 8 }] }] := by
  norm_num [createTimelineRows, createTimelineRowsFuel, sortByStart, List.insertionSort,
    List.orderedInsert, rowLoop, mkTimelineRow, assignSubtitles, assignSubtitle, findIndex,
    rowContains, List.enum, List.enumFrom, pushSegment, listModify, mkSegment, defaultConfig]
  intro hcon
  exact absurd hcon (by decide)

/-- C3 witness: the amended theorem applied to the counterexample's input. -/
theorem C3_beyond_last_row_in_row0_witness :
    ∃ r0 rest, createTimelineRows (some [(1 : ℚ)])
        (some [{ id := some "x1", start := 200, «end» := 300, text := "x", settings := none }])
        defaultConfig = some (r0 :: rest) ∧
      ∃ seg ∈ r0.subtitles, seg.start =
          ({ id := some "x1", start := 200, «end» := 300, text := "x",
             settings := none } : SubtitleCue).start ∧
        seg.«end» = ({ id := some "x1", start := 200, «end» := 300, text := "x",
                       settings := none } : SubtitleCue).«end» ∧
        seg.text = ({ id := some "x1", start := 200, «end» := 300, text := "x",
                      settings := none } : SubtitleCue).text :=
  C3_beyond_last_row_in_row0 [(1 : ℚ)]
    [{ id := some "x1", start := 200, «end» := 300, text := "x", settings := none }]
    defaultConfig
    { id := some "x1", start := 200, «end» := 300, text := "x", settings := none }
    (by simp) (by norm_num [defaultConfig]) (by norm_num [defaultConfig])
    (by simp) (by norm_num [defaultConfig]) (by norm_num)

/-- C5 counterexample: a zero-length waveform together with a non-empty cue
list does not yield an empty row list — the call fails (`rows[0]` of an
empty array, a `TypeError`), modelled as `none`. -/
theorem C5_counterexample :
    createTimelineRows (some [])
      (some [{ id := some "x1", start := 0, «end» := 100, text := "x", settings := none }])
      defaultConfig = none := by
  rfl

/-- C4 counterexample: with `pointsPerRow = 0` and a one-point waveform the
call produces no row list and no error value — the loop just runs out of
any fuel bound (here the wrapper's own bound). -/
theorem C4_counterexample :
    createTimelineRows (some [1]) none
      { barWidth := 8, pointsPerRow := 0, msPerPoint := 100 } = none := by
  rfl

/-- C4 witness: the divergence theorem applied at fuel `5`. -/
theorem C4_no_invalid_config_error_witness :
    createTimelineRowsFuel 5 (some [(1 : ℚ)]) none
      { barWidth := 8, pointsPerRow := 0, msPerPoint := 100 } = none :=
  C4_no_invalid_config_error 5 [(1 : ℚ)] none
    { barWidth := 8, pointsPerRow := 0, msPerPoint := 100 } (by norm_num) (by simp)

/-- C7 witness: moving a cue's start `2000 ms` later inverts it past its own
end, so the adjustment is rejected. -/
theorem C7_rejected_adjustment_witness :
    adjustSubtitleTiming
      [{ id := none, start := 0, «end» := 1000, text := "a", settings := none }]
      0 AdjustType.startTime 2000 = none :=
  C7_rejected_adjustment
    [{ id := none, start := 0, «end» := 1000, text := "a", settings := none }]
    0 AdjustType.startTime 2000 (by norm_num)
    (Or.inl ⟨rfl, by norm_num [roundToNearest100ms, jsRound]⟩)

/-- C10 witness: the two variants agree on a concrete input. -/
theorem createTimelineRows_eq_variants_witness :
    createTimelineRows (some [(1 : ℚ)]) none defaultConfig =
      createTimelineRows' (some [(1 : ℚ)]) none defaultConfig :=
  createTimelineRows_eq_variants (some [(1 : ℚ)]) none defaultConfig
    (by norm_num [defaultConfig])

theorem C1_row_partition_witness :
    exampleWaveform ≠ [] ∧ 0 < exampleConfig.pointsPerRow ∧
    0 < exampleConfig.barWidth ∧ 0 < exampleConfig.msPerPoint ∧
    (∃ rows, createTimelineRows (some exampleWaveform) none exampleConfig = some rows ∧
      (rows.length : ℤ) = ⌈(exampleWaveform.length : ℚ) / (exampleConfig.pointsPerRow : ℚ)⌉ ∧
      (rows.map TimelineRow.pointCount).sum = (exampleWaveform.length : ℤ) ∧
      (∀ (i : ℕ) (hi : i < rows.length), i + 1 < rows.length →
        (rows.get ⟨i, hi⟩).pointCount = exampleConfig.pointsPerRow) ∧
      (∀ r ∈ rows, 0 < r.pointCount) ∧
      (∀ (i : ℕ) (hi1 : i + 1 < rows.length),
        (rows.get ⟨i, Nat.lt_of_succ_lt hi1⟩).endTime = (rows.get ⟨i + 1, hi1⟩).startTime) ∧
      (∀ r ∈ rows, r.startTime = (r.startPoint : ℚ) * exampleConfig.msPerPoint ∧
        r.endTime = r.startTime + (r.pointCount : ℚ) * exampleConfig.msPerPoint ∧
        r.width = (r.pointCount : ℚ) * exampleConfig.barWidth)) :=
  ⟨by decide, by decide, by norm_num [exampleConfig], by norm_num [exampleConfig],
    C1_row_partition exampleWaveform none exampleConfig (by decide) (by decide)
      (by norm_num [exampleConfig]) (by norm_num [exampleConfig])⟩

theorem C8_text_split_witness :
    (updateSubtitleText [exampleCue] 0 "AAA\n\nBB" =
      some [{ id := none, start := 0, «end» := 600, text := "AAA", settings := none },
            { id := none, start := 600, «end» := 1000, text := "BB", settings := none }]) ∧
    ¬ jsTrim ("AAA\n\nBB").data = [] ∧
    (splitBlankLines ("AAA\n\nBB").data).length ≠ 1 ∧
    1 < (splitParts "AAA\n\nBB").length ∧
    (∃ segs, updateSubtitleText [exampleCue] 0 "AAA\n\nBB" =
        some ([exampleCue].take 0 ++ segs ++ [exampleCue].drop 1) ∧
      segs.length = (splitParts "AAA\n\nBB").length ∧
      (∀ y ∈ segs.head?, y.start = exampleCue.start) ∧
      (∀ y ∈ segs.getLast?, y.«end» = exampleCue.«end») ∧
      List.Chain' (fun a b => a.«end» = b.start) segs ∧
      (∀ (j : ℕ) (hj : j < segs.length) (hj' : j < (splitParts "AAA\n\nBB").length),
        (segs.get ⟨j, hj⟩).text = (splitParts "AAA\n\nBB").get ⟨j, hj'⟩ ∧
        (segs.get ⟨j, hj⟩).«end» - (segs.get ⟨j, hj⟩).start =
          (exampleCue.«end» - exampleCue.start) *
            ((((splitParts "AAA\n\nBB").get ⟨j, hj'⟩).length : ℕ) : ℚ) /
            ((((splitParts "AAA\n\nBB").map String.length).sum : ℕ) : ℚ))) := by
  refine ⟨?_, by decide, by decide, by decide,
    C8_text_split [exampleCue] 0 "AAA\n\nBB" (by norm_num) (by decide) (by decide) (by decide)⟩
  have hp : splitParts "AAA\n\nBB" = ["AAA", "BB"] := by decide
  have ht : ¬ jsTrim ("AAA\n\nBB").data = [] := by decide
  have hb : (splitBlankLines ("AAA\n\nBB").data).length ≠ 1 := by decide
  unfold updateSubtitleText
  rw [dif_pos (by norm_num : (0 : ℕ) < [exampleCue].length)]
  simp only [if_neg ht, if_pos hb, hp]
  norm_num [exampleCue, splitLoop, show ("AAA").length = 3 from rfl,
    show ("BB").length = 2 from rfl]

end Sube
